import Mathlib

/-!
Verification of the Data Guardian envelope core against its specification.

This file gives a shallow embedding, in Lean 4, of the parts of the
`data_guardian` Python package that the specification's claims talk about:

* `crypto/symmetric.py`  — chunk-nonce derivation (`derive_chunk_nonce`);
* `services/stream.py`   — the streaming writer's inline nonce derivation;
* `crypto/threshold.py`  — Shamir secret sharing over the secp256k1 field;
* `storage/header.py`    — `Recipient` / `FileHeader`: validation, canonical
  serialization, legacy-tolerant parsing, and `aad_bytes`;
* `storage/file_io.py`   — the envelope writer;
* `storage/keystore.py`  — Scrypt-sealed private-key blobs;
* `services/encryptor.py` and `services/decryptor.py` — the hybrid pipeline.

Machine integers are embedded as `Nat`/`Int` (Python integers are unbounded;
where Python wraps — e.g. `% MAX_CHUNKS`, `struct.pack(">I", …)` — the
embedding carries the explicit `% 2^32`).  Byte strings are `List Nat` with
side conditions `b < 256` where a claim needs them.  Fallible Python code
(`raise`) is embedded with `Except`/`Option`.  Cryptographic primitives from
the `cryptography` package (AES-GCM, ChaCha20-Poly1305, RSA-OAEP, Scrypt) are
not re-implemented bit-for-bit; they enter the theorems either as abstract
function parameters constrained by their standard contracts, or as concrete
executable mock instances of those contracts, which is the standard
idealization for stating functional-correctness claims about code that
composes such primitives.
-/

set_option maxRecDepth 100000

namespace DataGuardian

/-! ## Byte-level utilities

`bytesToNatBE` embeds Python's `int.from_bytes(bs, "big")`;
`natToBytesBE w n` embeds `n.to_bytes(w, "big")` (Python raises on overflow;
every use below is guarded by `n < 256^w`, where the two agree).
-/

def bytesToNatBE (bs : List Nat) : Nat :=
  bs.foldl (fun acc b => acc * 256 + b) 0

def natToBytesBE : Nat → Nat → List Nat
  | 0, _ => []
  | w + 1, n => natToBytesBE w (n / 256) ++ [n % 256]

def be32 (n : Nat) : List Nat := natToBytesBE 4 n

theorem natToBytesBE_length (w n : Nat) : (natToBytesBE w n).length = w := by
  induction w generalizing n with
  | zero => rfl
  | succ w ih => simp [natToBytesBE, ih]

theorem bytesToNatBE_foldl (a : Nat) (l : List Nat) :
    l.foldl (fun acc b => acc * 256 + b) a = a * 256 ^ l.length + bytesToNatBE l := by
  induction l generalizing a with
  | nil => simp [bytesToNatBE]
  | cons b t ih =>
      have hb : bytesToNatBE (b :: t) = b * 256 ^ t.length + bytesToNatBE t := by
        unfold bytesToNatBE
        simpa using ih b
      simp only [List.foldl_cons, List.length_cons, hb, ih (a * 256 + b)]
      ring

theorem bytesToNatBE_append (xs ys : List Nat) :
    bytesToNatBE (xs ++ ys) = bytesToNatBE xs * 256 ^ ys.length + bytesToNatBE ys := by
  unfold bytesToNatBE
  rw [List.foldl_append]
  exact bytesToNatBE_foldl _ ys

theorem bytesToNatBE_natToBytesBE (w n : Nat) :
    bytesToNatBE (natToBytesBE w n) = n % 256 ^ w := by
  induction w generalizing n with
  | zero => simp [natToBytesBE, bytesToNatBE, Nat.mod_one]
  | succ w ih =>
      rw [natToBytesBE, bytesToNatBE_append, ih]
      simp only [List.length_cons, List.length_nil, bytesToNatBE, List.foldl_cons, List.foldl_nil,
        Nat.zero_mul, Nat.zero_add, pow_one]
      have hsplit : n % 256 ^ (w + 1) = n % 256 + 256 * (n / 256 % 256 ^ w) := by
        have h : (256:Nat) ^ (w + 1) = 256 * 256 ^ w := by ring
        rw [h, Nat.mod_mul]
      omega

theorem natToBytesBE_bytesToNatBE (bs : List Nat) (hlt : ∀ b ∈ bs, b < 256) :
    natToBytesBE bs.length (bytesToNatBE bs) = bs := by
  induction bs using List.reverseRecOn with
  | nil => rfl
  | append_singleton xs x ih =>
      have hx : x < 256 := hlt x (by simp)
      have hxs : ∀ b ∈ xs, b < 256 := fun b hb => hlt b (by simp [hb])
      have hone : bytesToNatBE [x] = x := by simp [bytesToNatBE]
      have hlen : (xs ++ [x]).length = xs.length + 1 := by simp
      rw [hlen, bytesToNatBE_append, hone, natToBytesBE]
      have hM : bytesToNatBE xs * 256 ^ ([x] : List Nat).length + x
          = bytesToNatBE xs * 256 + x := by norm_num
      rw [hM]
      have hdiv : (bytesToNatBE xs * 256 + x) / 256 = bytesToNatBE xs := by omega
      have hmod : (bytesToNatBE xs * 256 + x) % 256 = x := by omega
      rw [hdiv, hmod, ih hxs]

theorem natToBytesBE_lt (w n : Nat) : ∀ b ∈ natToBytesBE w n, b < 256 := by
  induction w generalizing n with
  | zero => simp [natToBytesBE]
  | succ w ih =>
      intro b hb
      rw [natToBytesBE] at hb
      rcases List.mem_append.mp hb with h | h
      · exact ih _ b h
      · simp only [List.mem_singleton] at h
        omega

theorem natToBytesBE_inj (w m n : Nat) (hm : m < 256 ^ w) (hn : n < 256 ^ w)
    (h : natToBytesBE w m = natToBytesBE w n) : m = n := by
  have := congrArg bytesToNatBE h
  rw [bytesToNatBE_natToBytesBE, bytesToNatBE_natToBytesBE,
    Nat.mod_eq_of_lt hm, Nat.mod_eq_of_lt hn] at this
  exact this

/-! ## Fast modular exponentiation

`powMod a e n` embeds Python's built-in `pow(a, e, n)`.  The definition is a
fuelled square-and-multiply whose fuel-exhaustion branch falls back to the
mathematical definition, so `powMod a e n = a ^ e % n` holds by construction
for every input, while kernel reduction takes the fast path for all exponents
below `2 ^ 300` (every exponent in this file is below `2 ^ 257`).
-/

def powModF : Nat → Nat → Nat → Nat → Nat
  | 0, a, e, n => a ^ e % n
  | fuel + 1, a, e, n =>
      if e = 0 then 1 % n
      else
        let h := powModF fuel (a * a % n) (e / 2) n
        if e % 2 = 1 then h * (a % n) % n else h

def powMod (a e n : Nat) : Nat := powModF 300 a e n

theorem powModF_eq (fuel : Nat) : ∀ a e n : Nat, 0 < n → powModF fuel a e n = a ^ e % n := by
  induction fuel with
  | zero => intro a e n _; rfl
  | succ fuel ih =>
      intro a e n hn
      rw [powModF]
      by_cases he : e = 0
      · simp [he]
      · simp only [he, if_false]
        have hrec : powModF fuel (a * a % n) (e / 2) n = (a * a % n) ^ (e / 2) % n := ih _ _ _ hn
        have hsq : (a * a % n) ^ (e / 2) % n = (a * a) ^ (e / 2) % n := by
          rw [Nat.pow_mod, Nat.mod_mod_of_dvd _ (dvd_refl n), ← Nat.pow_mod]
        have hpow : (a * a) ^ (e / 2) = a ^ (2 * (e / 2)) := by
          rw [two_mul, pow_add, ← mul_pow]
        by_cases hodd : e % 2 = 1
        · simp only [hodd, if_true]
          rw [hrec, hsq, hpow]
          have he2 : e = 2 * (e / 2) + 1 := by omega
          conv_rhs => rw [he2, pow_succ, Nat.mul_mod]
        · simp only [hodd, if_false]
          rw [hrec, hsq, hpow]
          have he2 : e = 2 * (e / 2) := by omega
          rw [← he2]

theorem powMod_eq (a e n : Nat) (hn : 0 < n) : powMod a e n = a ^ e % n :=
  powModF_eq 300 a e n hn

/-! ## Chunk-nonce derivation

Embedding of `data_guardian/crypto/symmetric.py`, lines 97–107
(`derive_chunk_nonce`): the function takes the 12-byte base nonce, reads its
last four bytes as a big-endian counter, ADDS the chunk index modulo `2^32`,
and writes the sum back big-endian.  Out-of-range inputs raise `ValueError`,
embedded as `none`.
-/

def NONCE_SIZE : Nat := 12

def MAX_CHUNKS : Nat := 2 ^ 32

def derive_chunk_nonce (base_nonce : List Nat) (chunk_index : Nat) : Option (List Nat) :=
  if base_nonce.length ≠ NONCE_SIZE then none
  else if MAX_CHUNKS ≤ chunk_index then none
  else
    let head8 := base_nonce.take (base_nonce.length - 4)
    let counter := bytesToNatBE (base_nonce.drop (base_nonce.length - 4))
    let newCounter := (counter + chunk_index) % MAX_CHUNKS
    some (head8 ++ natToBytesBE 4 newCounter)

/-- Embedding of the inline per-chunk nonce derivation of
`data_guardian/services/stream.py`, lines 88–92 (`StreamEncryptor.encrypt_file`):
`base[-1 - i] ^= (idx >> (8 * i)) & 0xFF` for `i = 0, 1, 2, 3`. -/
def streamChunkNonce (content_nonce : List Nat) (idx : Nat) : List Nat :=
  (List.range 4).foldl
    (fun b i => b.set (b.length - 1 - i) ((b.getD (b.length - 1 - i) 0) ^^^ ((idx >>> (8 * i)) &&& 0xFF)))
    content_nonce

/-- Nonce formula asserted by claim C3: the 32-bit big-endian encoding of the
index XORed into the last four bytes of the base nonce. -/
def xorNonceClaim (base : List Nat) (i : Nat) : List Nat :=
  base.take 8 ++ List.zipWith (fun a b => a ^^^ b) (base.drop 8) (natToBytesBE 4 i)

theorem shiftRight_and_255 (m k : Nat) : (m >>> k) &&& 255 = m / 2 ^ k % 256 := by
  rw [Nat.shiftRight_eq_div_pow]
  have h := Nat.and_pow_two_sub_one_eq_mod (m / 2 ^ k) 8
  norm_num at h
  exact h

theorem exists_twelve (l : List Nat) (hl : l.length = 12) :
    ∃ a0 a1 a2 a3 a4 a5 a6 a7 a8 a9 a10 a11,
      l = [a0, a1, a2, a3, a4, a5, a6, a7, a8, a9, a10, a11] := by
  obtain ⟨a0, l, rfl⟩ := List.exists_of_length_succ l hl
  simp only [List.length_cons, Nat.succ_inj] at hl
  obtain ⟨a1, l, rfl⟩ := List.exists_of_length_succ l hl
  simp only [List.length_cons, Nat.succ_inj] at hl
  obtain ⟨a2, l, rfl⟩ := List.exists_of_length_succ l hl
  simp only [List.length_cons, Nat.succ_inj] at hl
  obtain ⟨a3, l, rfl⟩ := List.exists_of_length_succ l hl
  simp only [List.length_cons, Nat.succ_inj] at hl
  obtain ⟨a4, l, rfl⟩ := List.exists_of_length_succ l hl
  simp only [List.length_cons, Nat.succ_inj] at hl
  obtain ⟨a5, l, rfl⟩ := List.exists_of_length_succ l hl
  simp only [List.length_cons, Nat.succ_inj] at hl
  obtain ⟨a6, l, rfl⟩ := List.exists_of_length_succ l hl
  simp only [List.length_cons, Nat.succ_inj] at hl
  obtain ⟨a7, l, rfl⟩ := List.exists_of_length_succ l hl
  simp only [List.length_cons, Nat.succ_inj] at hl
  obtain ⟨a8, l, rfl⟩ := List.exists_of_length_succ l hl
  simp only [List.length_cons, Nat.succ_inj] at hl
  obtain ⟨a9, l, rfl⟩ := List.exists_of_length_succ l hl
  simp only [List.length_cons, Nat.succ_inj] at hl
  obtain ⟨a10, l, rfl⟩ := List.exists_of_length_succ l hl
  simp only [List.length_cons, Nat.succ_inj] at hl
  obtain ⟨a11, l, rfl⟩ := List.exists_of_length_succ l hl
  simp only [List.length_cons, Nat.succ_inj] at hl
  rw [List.length_eq_zero] at hl
  subst hl
  exact ⟨a0, a1, a2, a3, a4, a5, a6, a7, a8, a9, a10, a11, rfl⟩

theorem derive_chunk_nonce_spec (base : List Nat) (i : Nat) (hlen : base.length = 12)
    (hi : i < 2 ^ 32) :
    derive_chunk_nonce base i =
      some (base.take 8 ++ natToBytesBE 4 ((bytesToNatBE (base.drop 8) + i) % 2 ^ 32)) := by
  unfold derive_chunk_nonce
  rw [hlen]
  have h1 : ¬(12 ≠ NONCE_SIZE) := by norm_num [NONCE_SIZE]
  have h2 : ¬(MAX_CHUNKS ≤ i) := by
    simp only [MAX_CHUNKS]
    omega
  simp only [h1, if_false, h2]
  norm_num [MAX_CHUNKS]

theorem streamChunkNonce_spec (base : List Nat) (i : Nat) (hlen : base.length = 12) :
    streamChunkNonce base i = xorNonceClaim base i := by
  obtain ⟨a0, a1, a2, a3, a4, a5, a6, a7, a8, a9, a10, a11, rfl⟩ := exists_twelve base hlen
  show streamChunkNonce [a0, a1, a2, a3, a4, a5, a6, a7, a8, a9, a10, a11] i = _
  have hr : List.range 4 = [0, 1, 2, 3] := by decide
  simp only [streamChunkNonce, hr, List.foldl_cons, List.foldl_nil, List.length_cons,
    List.length_nil, xorNonceClaim, natToBytesBE, List.nil_append, List.take, List.drop,
    List.zipWith, List.set, List.getD, List.get?, List.append_nil]
  norm_num [List.set, List.getD]
  have h255 : ∀ m : Nat, m &&& 255 = m % 256 := fun m => by
    have h := Nat.and_pow_two_sub_one_eq_mod m 8
    norm_num at h
    exact h
  refine ⟨?_, ?_, ?_, ?_⟩ <;> simp only [shiftRight_and_255, h255] <;> omega

/-- C3 counterexample: with base nonce `00…0001` and chunk index `1`,
`derive_chunk_nonce` (used by `HybridEncryptor.encrypt_file`) returns
`00…0002` — the counter is ADDED — while the claimed XOR formula yields
`00…0000`.  The claim, which asserts the XOR formula for the encryptor's
nonces, is therefore false of the code. -/
theorem c3_counterexample :
    derive_chunk_nonce [0, 0, 0, 0, 0, 0, 0, 0, 0, 0, 0, 1] 1 =
      some [0, 0, 0, 0, 0, 0, 0, 0, 0, 0, 0, 2] ∧
    xorNonceClaim [0, 0, 0, 0, 0, 0, 0, 0, 0, 0, 0, 1] 1 =
      [0, 0, 0, 0, 0, 0, 0, 0, 0, 0, 0, 0] ∧
    derive_chunk_nonce [0, 0, 0, 0, 0, 0, 0, 0, 0, 0, 0, 1] 1 ≠
      some (xorNonceClaim [0, 0, 0, 0, 0, 0, 0, 0, 0, 0, 0, 1] 1) := by
  refine ⟨by decide, by decide, by decide⟩

/-- C3 amended: for every 12-byte base nonce and chunk index `i < 2^32`,
`derive_chunk_nonce` (the `HybridEncryptor` path) leaves the first eight bytes
unchanged and replaces the last four bytes by the big-endian encoding of
`(counter + i) mod 2^32`, where `counter` is the big-endian value of the base
nonce's last four bytes — i.e. the index is ADDED into the trailing counter,
not XORed.  The `StreamEncryptor` path, in contrast, does use the claimed
XOR-into-the-last-four-bytes formula. -/
theorem c3_amended (base : List Nat) (i : Nat) (hlen : base.length = 12) (hi : i < 2 ^ 32) :
    derive_chunk_nonce base i =
      some (base.take 8 ++ natToBytesBE 4 ((bytesToNatBE (base.drop 8) + i) % 2 ^ 32)) ∧
    streamChunkNonce base i = xorNonceClaim base i :=
  ⟨derive_chunk_nonce_spec base i hlen hi, streamChunkNonce_spec base i hlen⟩

theorem c3_amended_witness :
    derive_chunk_nonce [1, 2, 3, 4, 5, 6, 7, 8, 0, 0, 0, 250] 9 =
      some ([1, 2, 3, 4, 5, 6, 7, 8, 0, 0, 0, 250].take 8 ++
        natToBytesBE 4 ((bytesToNatBE ([1, 2, 3, 4, 5, 6, 7, 8, 0, 0, 0, 250].drop 8) + 9) % 2 ^ 32)) ∧
    streamChunkNonce [1, 2, 3, 4, 5, 6, 7, 8, 0, 0, 0, 250] 9 =
      xorNonceClaim [1, 2, 3, 4, 5, 6, 7, 8, 0, 0, 0, 250] 9 :=
  c3_amended [1, 2, 3, 4, 5, 6, 7, 8, 0, 0, 0, 250] 9 (by decide) (by decide)

/-- C9 confirmed: for a fixed 12-byte base nonce, `derive_chunk_nonce` is
injective on chunk indices in `[0, 2^32)`: the trailing counter map
`i ↦ (counter + i) mod 2^32` is injective on that range, and the 4-byte
big-endian encoding is injective below `2^32`. -/
theorem c9_chunk_nonce_injective (base : List Nat) (i j : Nat) (hlen : base.length = 12)
    (hi : i < 2 ^ 32) (hj : j < 2 ^ 32)
    (h : derive_chunk_nonce base i = derive_chunk_nonce base j) : i = j := by
  rw [derive_chunk_nonce_spec base i hlen hi, derive_chunk_nonce_spec base j hlen hj] at h
  have h2 : natToBytesBE 4 ((bytesToNatBE (base.drop 8) + i) % 2 ^ 32) =
      natToBytesBE 4 ((bytesToNatBE (base.drop 8) + j) % 2 ^ 32) :=
    List.append_cancel_left (Option.some.inj h)
  have h3 := natToBytesBE_inj 4 _ _
    (by have := Nat.mod_lt (bytesToNatBE (base.drop 8) + i) (y := 2 ^ 32) (by norm_num); norm_num; omega)
    (by have := Nat.mod_lt (bytesToNatBE (base.drop 8) + j) (y := 2 ^ 32) (by norm_num); norm_num; omega)
    h2
  omega

theorem c9_chunk_nonce_injective_witness : (5 : Nat) = 5 :=
  c9_chunk_nonce_injective [9, 9, 9, 9, 9, 9, 9, 9, 9, 9, 9, 9] 5 5
    (by decide) (by decide) (by decide) rfl

/-! ## Primality of the secp256k1 field prime

`crypto/threshold.py` works modulo
`P = 0xFFFFFFFF FFFFFFFF FFFFFFFF FFFFFFFF FFFFFFFF FFFFFFFF FFFFFFFE FFFFFC2F`
and inverts via Fermat's little theorem, so the Shamir correctness proof
needs `Nat.Prime P`.  We certify it with a full Pratt chain through
`lucas_primality`: the witness computations run through `powMod`, whose
kernel reduction is fast. -/

def P256 : Nat :=
  115792089237316195423570985008687907853269984665640564039457584007908834671663

theorem cast_powMod (p a e : Nat) (hp : 0 < p) :
    ((powMod a e p : Nat) : ZMod p) = (a : ZMod p) ^ e := by
  rw [powMod_eq a e p hp, ZMod.natCast_mod, Nat.cast_pow]

theorem pow_check_one (p a : Nat) (hp : 0 < p) (h : powMod a (p - 1) p = 1) :
    (a : ZMod p) ^ (p - 1) = 1 := by
  have hc := cast_powMod p a (p - 1) hp
  rw [h] at hc
  simpa using hc.symm

theorem pow_check_ne (p a e : Nat) (hp : 1 < p) (h : powMod a e p ≠ 1) :
    (a : ZMod p) ^ e ≠ 1 := by
  intro hcon
  apply h
  have hc := cast_powMod p a e (by omega)
  rw [hcon] at hc
  haveI : NeZero p := ⟨by omega⟩
  haveI : Fact (1 < p) := ⟨hp⟩
  have hlt : powMod a e p < p := by
    rw [powMod_eq _ _ _ (by omega)]
    exact Nat.mod_lt _ (by omega)
  have h1 := ZMod.val_cast_of_lt hlt
  rw [hc, ZMod.val_one] at h1
  exact h1.symm

theorem prime_dvd_list (q : Nat) (hq : q.Prime) (l : List Nat) (h : q ∣ l.prod) :
    ∃ x ∈ l, q ∣ x := by
  induction l with
  | nil =>
      simp only [List.prod_nil, Nat.dvd_one] at h
      exact absurd h hq.ne_one
  | cons x t ih =>
      rw [List.prod_cons] at h
      rcases (Nat.Prime.dvd_mul hq).mp h with h | h
      · exact ⟨x, by simp, h⟩
      · obtain ⟨y, hy, hd⟩ := ih h
        exact ⟨y, by simp [hy], hd⟩

theorem prime_1206781 : Nat.Prime 1206781 := by
  have hfac : (1206781 : Nat) - 1 = ([2, 2, 3, 5, 20113] : List Nat).prod := by decide
  refine lucas_primality _ (10 : ZMod 1206781) ?_ ?_
  · exact_mod_cast pow_check_one 1206781 10 (by norm_num) (by decide)
  · intro q hq hdvd
    rw [hfac] at hdvd
    obtain ⟨x, hx, hqx⟩ := prime_dvd_list q hq _ hdvd
    simp only [List.mem_cons, List.not_mem_nil, or_false] at hx
    rcases hx with rfl | rfl | rfl | rfl | rfl <;>
      (obtain rfl := (Nat.prime_dvd_prime_iff_eq hq (by norm_num)).mp hqx
       exact_mod_cast pow_check_ne _ 10 _ (by norm_num) (by decide))

theorem prime_13331831 : Nat.Prime 13331831 := by
  have hfac : (13331831 : Nat) - 1 = ([2, 5, 971, 1373] : List Nat).prod := by decide
  refine lucas_primality _ (13 : ZMod 13331831) ?_ ?_
  · exact_mod_cast pow_check_one 13331831 13 (by norm_num) (by decide)
  · intro q hq hdvd
    rw [hfac] at hdvd
    obtain ⟨x, hx, hqx⟩ := prime_dvd_list q hq _ hdvd
    simp only [List.mem_cons, List.not_mem_nil, or_false] at hx
    rcases hx with rfl | rfl | rfl | rfl <;>
      (obtain rfl := (Nat.prime_dvd_prime_iff_eq hq (by norm_num)).mp hqx
       exact_mod_cast pow_check_ne _ 13 _ (by norm_num) (by decide))

theorem prime_7240687 : Nat.Prime 7240687 := by
  have hfac : (7240687 : Nat) - 1 = ([2, 3, 1206781] : List Nat).prod := by decide
  refine lucas_primality _ (3 : ZMod 7240687) ?_ ?_
  · exact_mod_cast pow_check_one 7240687 3 (by norm_num) (by decide)
  · intro q hq hdvd
    rw [hfac] at hdvd
    obtain ⟨x, hx, hqx⟩ := prime_dvd_list q hq _ hdvd
    simp only [List.mem_cons, List.not_mem_nil, or_false] at hx
    rcases hx with rfl | rfl | rfl <;>
      (obtain rfl := (Nat.prime_dvd_prime_iff_eq hq
        (by first | exact prime_1206781 | norm_num)).mp hqx
       exact_mod_cast pow_check_ne _ 3 _ (by norm_num) (by decide))

theorem prime_107590001 : Nat.Prime 107590001 := by
  have hfac : (107590001 : Nat) - 1 =
      ([2, 2, 2, 2, 5, 5, 5, 5, 7, 29, 53] : List Nat).prod := by decide
  refine lucas_primality _ (3 : ZMod 107590001) ?_ ?_
  · exact_mod_cast pow_check_one 107590001 3 (by norm_num) (by decide)
  · intro q hq hdvd
    rw [hfac] at hdvd
    obtain ⟨x, hx, hqx⟩ := prime_dvd_list q hq _ hdvd
    simp only [List.mem_cons, List.not_mem_nil, or_false] at hx
    rcases hx with rfl | rfl | rfl | rfl | rfl | rfl | rfl | rfl | rfl | rfl | rfl <;>
      (obtain rfl := (Nat.prime_dvd_prime_iff_eq hq (by norm_num)).mp hqx
       exact_mod_cast pow_check_ne _ 3 _ (by norm_num) (by decide))

theorem prime_r2chain : Nat.Prime 173378833005251801 := by
  have hfac : (173378833005251801 : Nat) - 1 =
      ([2, 2, 2, 5, 5, 2621, 24809, 13331831] : List Nat).prod := by decide
  refine lucas_primality _ (6 : ZMod 173378833005251801) ?_ ?_
  · exact_mod_cast pow_check_one 173378833005251801 6 (by norm_num) (by decide)
  · intro q hq hdvd
    rw [hfac] at hdvd
    obtain ⟨x, hx, hqx⟩ := prime_dvd_list q hq _ hdvd
    simp only [List.mem_cons, List.not_mem_nil, or_false] at hx
    rcases hx with rfl | rfl | rfl | rfl | rfl | rfl | rfl | rfl <;>
      (obtain rfl := (Nat.prime_dvd_prime_iff_eq hq
        (by first | exact prime_13331831 | norm_num)).mp hqx
       exact_mod_cast pow_check_ne _ 6 _ (by norm_num) (by decide))

theorem prime_r1chain : Nat.Prime 22149492674086928081353 := by
  have hfac : (22149492674086928081353 : Nat) - 1 =
      ([2, 2, 2, 3, 5323, 173378833005251801] : List Nat).prod := by decide
  refine lucas_primality _ (5 : ZMod 22149492674086928081353) ?_ ?_
  · exact_mod_cast pow_check_one 22149492674086928081353 5 (by norm_num) (by decide)
  · intro q hq hdvd
    rw [hfac] at hdvd
    obtain ⟨x, hx, hqx⟩ := prime_dvd_list q hq _ hdvd
    simp only [List.mem_cons, List.not_mem_nil, or_false] at hx
    rcases hx with rfl | rfl | rfl | rfl | rfl | rfl <;>
      (obtain rfl := (Nat.prime_dvd_prime_iff_eq hq
        (by first | exact prime_r2chain | norm_num)).mp hqx
       exact_mod_cast pow_check_ne _ 5 _ (by norm_num) (by decide))

theorem prime_n1chain : Nat.Prime 132896956044521568488119 := by
  have hfac : (132896956044521568488119 : Nat) - 1 =
      ([2, 3, 22149492674086928081353] : List Nat).prod := by decide
  refine lucas_primality _ (6 : ZMod 132896956044521568488119) ?_ ?_
  · exact_mod_cast pow_check_one 132896956044521568488119 6 (by norm_num) (by decide)
  · intro q hq hdvd
    rw [hfac] at hdvd
    obtain ⟨x, hx, hqx⟩ := prime_dvd_list q hq _ hdvd
    simp only [List.mem_cons, List.not_mem_nil, or_false] at hx
    rcases hx with rfl | rfl | rfl <;>
      (obtain rfl := (Nat.prime_dvd_prime_iff_eq hq
        (by first | exact prime_r1chain | norm_num)).mp hqx
       exact_mod_cast pow_check_ne _ 6 _ (by norm_num) (by decide))

theorem prime_n2chain : Nat.Prime 255515944373312847190720520512484175977 := by
  have hfac : (255515944373312847190720520512484175977 : Nat) - 1 =
      ([2, 2, 2, 7, 7, 11, 1627, 2657, 4423, 41201, 96557, 7240687, 107590001] :
        List Nat).prod := by decide
  refine lucas_primality _ (3 : ZMod 255515944373312847190720520512484175977) ?_ ?_
  · exact_mod_cast pow_check_one 255515944373312847190720520512484175977 3 (by norm_num) (by decide)
  · intro q hq hdvd
    rw [hfac] at hdvd
    obtain ⟨x, hx, hqx⟩ := prime_dvd_list q hq _ hdvd
    simp only [List.mem_cons, List.not_mem_nil, or_false] at hx
    rcases hx with rfl | rfl | rfl | rfl | rfl | rfl | rfl | rfl | rfl | rfl | rfl | rfl | rfl <;>
      (obtain rfl := (Nat.prime_dvd_prime_iff_eq hq
        (by first | exact prime_7240687 | exact prime_107590001 | norm_num)).mp hqx
       exact_mod_cast pow_check_ne _ 3 _ (by norm_num) (by decide))

theorem prime_Qchain :
    Nat.Prime 205115282021455665897114700593932402728804164701536103180137503955397371 := by
  have hfac :
      (205115282021455665897114700593932402728804164701536103180137503955397371 : Nat) - 1 =
      ([2, 3, 5, 29, 29, 31, 7723, 132896956044521568488119,
        255515944373312847190720520512484175977] : List Nat).prod := by decide
  refine lucas_primality _
    (10 : ZMod 205115282021455665897114700593932402728804164701536103180137503955397371) ?_ ?_
  · exact_mod_cast pow_check_one
      205115282021455665897114700593932402728804164701536103180137503955397371 10
      (by norm_num) (by decide)
  · intro q hq hdvd
    rw [hfac] at hdvd
    obtain ⟨x, hx, hqx⟩ := prime_dvd_list q hq _ hdvd
    simp only [List.mem_cons, List.not_mem_nil, or_false] at hx
    rcases hx with rfl | rfl | rfl | rfl | rfl | rfl | rfl | rfl | rfl <;>
      (obtain rfl := (Nat.prime_dvd_prime_iff_eq hq
        (by first | exact prime_n1chain | exact prime_n2chain | norm_num)).mp hqx
       exact_mod_cast pow_check_ne _ 10 _ (by norm_num) (by decide))

theorem prime_P256 : Nat.Prime P256 := by
  have hfac : (115792089237316195423570985008687907853269984665640564039457584007908834671663 :
      Nat) - 1 =
      ([2, 3, 7, 13441,
        205115282021455665897114700593932402728804164701536103180137503955397371] :
        List Nat).prod := by decide
  have hmain : Nat.Prime
      115792089237316195423570985008687907853269984665640564039457584007908834671663 := by
    refine lucas_primality _
      (3 : ZMod 115792089237316195423570985008687907853269984665640564039457584007908834671663)
      ?_ ?_
    · exact_mod_cast pow_check_one
        115792089237316195423570985008687907853269984665640564039457584007908834671663 3
        (by norm_num) (by decide)
    · intro q hq hdvd
      rw [hfac] at hdvd
      obtain ⟨x, hx, hqx⟩ := prime_dvd_list q hq _ hdvd
      simp only [List.mem_cons, List.not_mem_nil, or_false] at hx
      rcases hx with rfl | rfl | rfl | rfl | rfl <;>
        (obtain rfl := (Nat.prime_dvd_prime_iff_eq hq
          (by first | exact prime_Qchain | norm_num)).mp hqx
         exact_mod_cast pow_check_ne _ 3 _ (by norm_num) (by decide))
  exact hmain

instance factPrimeP256 : Fact (Nat.Prime P256) := ⟨prime_P256⟩

/-! ## Shamir secret sharing

Embedding of `data_guardian/crypto/threshold.py`.  The random coefficients
drawn by `split_secret` from `os.urandom` are passed in as the explicit list
`rand` (the code reduces each one `% P`; so does the embedding).  Python's
`%` on possibly negative ints is `Int.emod`, which is what the embedding
uses inside `combine_shares`.
-/

deriving instance DecidableEq for Except

def modinvP (a : Nat) : Nat := powMod a (P256 - 2) P256

/-- Embedding of `_eval_poly` (threshold.py lines 20–26): Horner-free
accumulation `y += c * xp; xp *= x`, all mod `P`. -/
def evalPoly (coeffs : List Nat) (x : Nat) : Nat :=
  (coeffs.foldl (fun acc c => ((acc.1 + c * acc.2) % P256, acc.2 * x % P256))
    ((0 : Nat), (1 : Nat))).1

/-- Embedding of `split_secret` (threshold.py lines 29–41). -/
def split_secret (secret : List Nat) (n k : Nat) (rand : List Nat) :
    Except String (List (Nat × Nat)) :=
  if secret.length ≠ 32 then .error "Secret must be 32 bytes"
  else if ¬(1 < k ∧ k ≤ n ∧ n ≤ 255) then .error "Invalid (k, n)"
  else
    .ok ((List.range n).map (fun i => (i + 1,
      evalPoly ((bytesToNatBE secret % P256) :: (rand.take (k - 1)).map (· % P256)) (i + 1))))

/-- Inner loop of `combine_shares` (threshold.py lines 51–60): starting from
`num = den = 1`, for each `m ≠ j` multiply `num` by `-x_m % P` and `den` by
`(x_j - x_m) % P`, reducing mod `P` at each step exactly as the Python does. -/
def lagNumDen (xs : List Nat) (k j : Nat) : Int × Int :=
  (List.range k).foldl
    (fun (nd : Int × Int) m =>
      if m = j then nd
      else
        (nd.1 * ((-((xs.getD m 0 : Nat) : Int)) % (P256 : Int)) % (P256 : Int),
         nd.2 * (((xs.getD j 0 : Nat) : Int) - ((xs.getD m 0 : Nat) : Int)) % (P256 : Int) %
           (P256 : Int)))
    ((1 : Int), (1 : Int))

/-- One summand `y_j * l_j` of the Lagrange sum, with
`l_j = (num * modinv(den, P)) % P` (threshold.py lines 61–62). -/
def lagTerm (xs ys : List Nat) (k j : Nat) : Int :=
  (ys.getD j 0 : Int) *
    ((lagNumDen xs k j).1 * ((modinvP (lagNumDen xs k j).2.toNat : Nat) : Int) % (P256 : Int))

/-- Outer accumulation `s = (s + y_j * l_j) % P` over `j = 0, …, k-1`. -/
def combineSum (xs ys : List Nat) (k : Nat) : Int :=
  (List.range k).foldl (fun s j => (s + lagTerm xs ys k j) % (P256 : Int)) 0

/-- Embedding of `combine_shares` (threshold.py lines 44–63): Lagrange
interpolation at `x = 0` over the first `k` of the given shares, with the
modular inverse computed by Fermat (`pow(den, P-2, P)`); the result is
re-serialized as 32 big-endian bytes. -/
def combine_shares (shares : List (Nat × Nat)) (k : Nat) : Except String (List Nat) :=
  if shares.length < k then .error "Not enough shares"
  else
    .ok (natToBytesBE 32 (combineSum ((shares.take k).map (fun t => t.1))
      ((shares.take k).map (fun t => t.2)) k).toNat)

/-- C4 counterexample: the all-`0xFF` 32-byte secret has integer value
`2^256 - 1 ≥ P`, so `split_secret` stores it reduced mod `P` (with random
coefficient 0 the polynomial is constant `4294968272 = (2^256 - 1) mod P`),
and `combine_shares` on the shares returns the 32-byte encoding of the
REDUCED value, not the original secret.  The claim, quantified over every
32-byte secret, is therefore false of the code. -/
theorem c4_counterexample :
    split_secret (List.replicate 32 255) 2 2 [0] =
      .ok [(1, 4294968272), (2, 4294968272)] ∧
    combine_shares [(1, 4294968272), (2, 4294968272)] 2 =
      .ok (natToBytesBE 32 4294968272) ∧
    natToBytesBE 32 4294968272 ≠ List.replicate 32 255 := by
  refine ⟨by decide, by decide, by decide⟩

/-! ### Correctness of Shamir reconstruction (machinery for C4's amended claim) -/

theorem P256_pos : 0 < P256 := by norm_num [P256]

theorem natCast_modP (a : Nat) : ((a % P256 : Nat) : ZMod P256) = (a : ZMod P256) :=
  ZMod.natCast_mod a P256

theorem intCast_modP (a : Int) : ((a % (P256 : Int) : Int) : ZMod P256) = (a : ZMod P256) :=
  ZMod.intCast_mod a P256

theorem pow_P256_sub_two (a : ZMod P256) (ha : a ≠ 0) : a ^ (P256 - 2) = a⁻¹ := by
  have h1 : a ^ (P256 - 2) * a = 1 := by
    have hp : P256 - 2 + 1 = P256 - 1 := by norm_num [P256]
    rw [← pow_succ, hp]
    exact ZMod.pow_card_sub_one_eq_one ha
  field_simp
  exact h1

theorem modinvP_cast (d : Int) (hd : 0 ≤ d) (hne : ((d : ZMod P256)) ≠ 0) :
    ((modinvP d.toNat : Nat) : ZMod P256) = (d : ZMod P256)⁻¹ := by
  unfold modinvP
  rw [powMod_eq _ _ _ P256_pos, natCast_modP, Nat.cast_pow]
  have hcast : ((d.toNat : Nat) : ZMod P256) = (d : ZMod P256) := by
    have h := Int.toNat_of_nonneg hd
    calc ((d.toNat : Nat) : ZMod P256) = (((d.toNat : Nat) : Int) : ZMod P256) := by push_cast; ring
    _ = (d : ZMod P256) := by rw [h]
  rw [hcast]
  exact pow_P256_sub_two _ hne

/-- Polynomial with the given list of `Nat` coefficients (low degree first),
over the secp256k1 field.  Proof-side object only (the executable embedding
of the code's polynomial evaluation is `evalPoly`). -/
noncomputable def polyOfZ : List Nat → Polynomial (ZMod P256)
  | [] => 0
  | c :: t => Polynomial.C ((c : Nat) : ZMod P256) + Polynomial.X * polyOfZ t

theorem polyOfZ_eval_zero (c : Nat) (t : List Nat) :
    (polyOfZ (c :: t)).eval 0 = ((c : Nat) : ZMod P256) := by
  simp [polyOfZ]

theorem degree_polyOfZ (l : List Nat) : (polyOfZ l).degree < (l.length : WithBot Nat) := by
  induction l with
  | nil =>
      show (0 : Polynomial (ZMod P256)).degree < _
      rw [Polynomial.degree_zero]
      exact WithBot.bot_lt_coe _
  | cons c t ih =>
      show (Polynomial.C _ + Polynomial.X * polyOfZ t).degree < _
      refine lt_of_le_of_lt (Polynomial.degree_add_le _ _) ?_
      rw [max_lt_iff]
      constructor
      · refine lt_of_le_of_lt Polynomial.degree_C_le ?_
        exact_mod_cast WithBot.coe_lt_coe.mpr (Nat.succ_pos t.length)
      · rw [Polynomial.degree_mul, Polynomial.degree_X]
        rcases hd : (polyOfZ t).degree with _ | d
        · show (1 : WithBot Nat) + ⊥ < _
          rw [WithBot.add_bot]
          exact WithBot.bot_lt_coe _
        · rw [hd] at ih
          rw [WithBot.some_eq_coe] at ih
          have hdt : d < t.length := WithBot.coe_lt_coe.mp ih
          simp only [List.length_cons]
          have h2 : ((1 + d : Nat) : WithBot Nat) < ((t.length + 1 : Nat) : WithBot Nat) := by
            exact_mod_cast (show 1 + d < t.length + 1 by omega)
          convert h2 using 1

theorem evalPoly_foldl (x : Nat) (cs : List Nat) : ∀ (y xp : Nat),
    (((cs.foldl (fun acc c => ((acc.1 + c * acc.2) % P256, acc.2 * x % P256)) (y, xp)).1 :
        Nat) : ZMod P256)
      = (y : ZMod P256) + (xp : ZMod P256) * (polyOfZ cs).eval ((x : Nat) : ZMod P256) := by
  induction cs with
  | nil => intro y xp; simp [polyOfZ]
  | cons c t ih =>
      intro y xp
      simp only [List.foldl_cons]
      rw [ih ((y + c * xp) % P256) (xp * x % P256)]
      rw [natCast_modP, natCast_modP]
      push_cast
      simp only [polyOfZ, Polynomial.eval_add, Polynomial.eval_mul, Polynomial.eval_C,
        Polynomial.eval_X]
      ring

theorem evalPoly_cast (cs : List Nat) (x : Nat) :
    ((evalPoly cs x : Nat) : ZMod P256) = (polyOfZ cs).eval ((x : Nat) : ZMod P256) := by
  unfold evalPoly
  rw [evalPoly_foldl]
  simp

theorem foldl_pair_split {α β : Type} (f : α → Nat → α) (g : β → Nat → β) (j : Nat)
    (l : List Nat) : ∀ (a : α) (b : β),
    l.foldl (fun nd m => if m = j then nd else (f nd.1 m, g nd.2 m)) (a, b) =
      (l.foldl (fun c m => if m = j then c else f c m) a,
       l.foldl (fun c m => if m = j then c else g c m) b) := by
  induction l with
  | nil => intro a b; rfl
  | cons m t ih =>
      intro a b
      simp only [List.foldl_cons]
      by_cases hm : m = j
      · simp only [hm, if_true]
        exact ih a b
      · simp only [hm, if_false]
        exact ih (f a m) (g b m)

theorem foldl_mulmod_cast (p : Nat → Int) (j : Nat) (l : List Nat) : ∀ (a : Int),
    ((l.foldl (fun c m => if m = j then c else c * p m % (P256 : Int)) a : Int) : ZMod P256) =
      (a : ZMod P256) *
        ((l.filter (fun m => !(m == j))).map (fun m => ((p m : Int) : ZMod P256))).prod := by
  induction l with
  | nil => intro a; simp
  | cons m t ih =>
      intro a
      rw [List.foldl_cons, List.filter_cons]
      by_cases hm : m = j
      · have hb : (!(m == j)) = false := by simp [hm]
        rw [hb]
        simp only [hm, if_true, Bool.false_eq_true, if_false]
        exact ih a
      · have hb : (!(m == j)) = true := by simp [hm]
        rw [hb]
        simp only [hm, if_false, if_true]
        rw [ih (a * p m % (P256 : Int)), intCast_modP]
        simp only [List.map_cons, List.prod_cons]
        push_cast
        ring

theorem foldl_mulmod_nonneg (p : Nat → Int) (j : Nat) (l : List Nat) : ∀ (a : Int), 0 ≤ a →
    0 ≤ l.foldl (fun c m => if m = j then c else c * p m % (P256 : Int)) a := by
  induction l with
  | nil => intro a ha; exact ha
  | cons m t ih =>
      intro a ha
      simp only [List.foldl_cons]
      by_cases hm : m = j
      · simp only [hm, if_true]
        exact ih a ha
      · simp only [hm, if_false]
        refine ih _ (Int.emod_nonneg _ ?_)
        have := P256_pos
        omega

theorem foldl_addmod_cast (g : Nat → Int) (l : List Nat) : ∀ (a : Int),
    (((l.foldl (fun s j => (s + g j) % (P256 : Int)) a) : Int) : ZMod P256) =
      (a : ZMod P256) + ((l.map fun j => ((g j : Int) : ZMod P256)).sum) := by
  induction l with
  | nil => intro a; simp
  | cons j t ih =>
      intro a
      simp only [List.foldl_cons, List.map_cons, List.sum_cons]
      rw [ih ((a + g j) % (P256 : Int)), intCast_modP]
      push_cast
      ring

theorem foldl_addmod_bounds (g : Nat → Int) (l : List Nat) : ∀ (a : Int),
    0 ≤ a → a < (P256 : Int) →
    0 ≤ l.foldl (fun s j => (s + g j) % (P256 : Int)) a ∧
      l.foldl (fun s j => (s + g j) % (P256 : Int)) a < (P256 : Int) := by
  induction l with
  | nil => intro a h0 h1; exact ⟨h0, h1⟩
  | cons j t ih =>
      intro a h0 h1
      simp only [List.foldl_cons]
      have hP : (0 : Int) < (P256 : Int) := by exact_mod_cast P256_pos
      exact ih _ (Int.emod_nonneg _ (by omega)) (Int.emod_lt_of_pos _ hP)

theorem list_range_filter_prod {M : Type} [CommMonoid M] (h : Nat → M) (k j : Nat) :
    (((List.range k).filter (fun m => !(m == j))).map h).prod =
      ∏ m ∈ (Finset.range k).erase j, h m := by
  rw [← Finset.filter_ne']
  rw [Finset.prod_filter]
  induction k with
  | zero => simp
  | succ k ih =>
      rw [List.range_succ, Finset.prod_range_succ, List.filter_append, List.map_append,
        List.prod_append, ih]
      by_cases hk : k = j
      · simp [hk]
      · simp [hk]

theorem list_range_map_sum {M : Type} [AddCommMonoid M] (h : Nat → M) (k : Nat) :
    ((List.range k).map h).sum = ∑ m ∈ Finset.range k, h m := by
  induction k with
  | zero => simp
  | succ k ih =>
      rw [List.range_succ, Finset.sum_range_succ, List.map_append, List.sum_append, ih]
      simp

instance neZeroP256 : NeZero P256 := ⟨by norm_num [P256]⟩

/-- Core correctness of the reconstruction sum: if the x-coordinates listed in
`xs` (read at positions `0, …, k-1`) are small, pairwise distinct, and each
`ys` value is the polynomial evaluated at the corresponding `xs` value, then
the Lagrange accumulation computed by `combine_shares` equals the polynomial's
value at `0`, in the secp256k1 field. -/
theorem combineSum_eval (cs xs ys : List Nat) (k : Nat)
    (hlen : cs.length ≤ k)
    (hX : ∀ j, j < k → xs.getD j 0 ≤ 255)
    (hXinj : ∀ j j', j < k → j' < k → xs.getD j 0 = xs.getD j' 0 → j = j')
    (hY : ∀ j, j < k → ys.getD j 0 = evalPoly cs (xs.getD j 0)) :
    ((combineSum xs ys k : Int) : ZMod P256) = (polyOfZ cs).eval 0 := by
  have h255 : (255 : Nat) < P256 := by norm_num [P256]
  set v : Nat → ZMod P256 := fun j => ((xs.getD j 0 : Nat) : ZMod P256) with hv
  have hvinj : Set.InjOn v ↑(Finset.range k) := by
    intro a ha b hb hab
    simp only [Finset.coe_range, Set.mem_Iio] at ha hb
    apply hXinj a b ha hb
    have ha' := ZMod.val_cast_of_lt (n := P256) (a := xs.getD a 0) (by have := hX a ha; omega)
    have hb' := ZMod.val_cast_of_lt (n := P256) (a := xs.getD b 0) (by have := hX b hb; omega)
    rw [← ha', ← hb']
    simp only [hv] at hab
    rw [hab]
  have hvne : ∀ a b, a < k → b < k → a ≠ b → v a - v b ≠ 0 := by
    intro a b ha hb hne
    refine sub_ne_zero_of_ne ?_
    intro hc
    exact hne (hvinj (by simpa using ha) (by simpa using hb) hc)
  have hdeg : (polyOfZ cs).degree < ((Finset.range k).card : WithBot Nat) := by
    rw [Finset.card_range]
    refine lt_of_lt_of_le (degree_polyOfZ cs) ?_
    have h2 : ((cs.length : Nat) : WithBot Nat) ≤ ((k : Nat) : WithBot Nat) := by
      exact_mod_cast hlen
    convert h2 using 1
  have hinterp := Lagrange.eq_interpolate hvinj hdeg
  have heval := congrArg (Polynomial.eval (0 : ZMod P256)) hinterp
  rw [Lagrange.interpolate_apply, Polynomial.eval_finset_sum] at heval
  simp only [Polynomial.eval_mul, Polynomial.eval_C] at heval
  -- Per-term identity between the code's Lagrange summand and the textbook one.
  have hterm : ∀ j, j < k → ((lagTerm xs ys k j : Int) : ZMod P256) =
      (polyOfZ cs).eval (v j) * (Lagrange.basis (Finset.range k) v j).eval 0 := by
    intro j hj
    -- split the paired num/den fold
    have hsplit : lagNumDen xs k j =
        ((List.range k).foldl (fun c m => if m = j then c else
            c * ((-((xs.getD m 0 : Nat) : Int)) % (P256 : Int)) % (P256 : Int)) 1,
         (List.range k).foldl (fun c m => if m = j then c else
            c * (((xs.getD j 0 : Nat) : Int) - ((xs.getD m 0 : Nat) : Int)) % (P256 : Int) %
              (P256 : Int)) 1) := by
      unfold lagNumDen
      exact foldl_pair_split
        (fun c m => c * ((-((xs.getD m 0 : Nat) : Int)) % (P256 : Int)) % (P256 : Int))
        (fun c m => c * (((xs.getD j 0 : Nat) : Int) - ((xs.getD m 0 : Nat) : Int)) %
          (P256 : Int) % (P256 : Int))
        j (List.range k) 1 1
    have hdmod : (fun (c : Int) m => if m = j then c else
        c * (((xs.getD j 0 : Nat) : Int) - ((xs.getD m 0 : Nat) : Int)) % (P256 : Int) %
          (P256 : Int)) = (fun (c : Int) m => if m = j then c else
        c * (((xs.getD j 0 : Nat) : Int) - ((xs.getD m 0 : Nat) : Int)) % (P256 : Int)) := by
      funext c m
      by_cases hm : m = j
      · simp [hm]
      · simp only [hm, if_false]
        rw [Int.emod_emod_of_dvd _ dvd_rfl]
    rw [hdmod] at hsplit
    have hnum_eq : (lagNumDen xs k j).1 =
        (List.range k).foldl (fun c m => if m = j then c else
          c * ((-((xs.getD m 0 : Nat) : Int)) % (P256 : Int)) % (P256 : Int)) 1 := by
      rw [hsplit]
    have hden_eq : (lagNumDen xs k j).2 =
        (List.range k).foldl (fun c m => if m = j then c else
          c * (((xs.getD j 0 : Nat) : Int) - ((xs.getD m 0 : Nat) : Int)) % (P256 : Int)) 1 := by
      rw [hsplit]
    have hnumc : (((lagNumDen xs k j).1 : Int) : ZMod P256) =
        ∏ m ∈ (Finset.range k).erase j, (-(v m)) := by
      rw [hnum_eq]
      rw [foldl_mulmod_cast (fun m => (-((xs.getD m 0 : Nat) : Int)) % (P256 : Int)) j
        (List.range k) 1]
      rw [list_range_filter_prod (fun m =>
        (((-((xs.getD m 0 : Nat) : Int)) % (P256 : Int) : Int) : ZMod P256)) k j]
      rw [Int.cast_one, one_mul]
      refine Finset.prod_congr rfl ?_
      intro m _
      rw [intCast_modP]
      push_cast
      rfl
    have hdenc : (((lagNumDen xs k j).2 : Int) : ZMod P256) =
        ∏ m ∈ (Finset.range k).erase j, (v j - v m) := by
      rw [hden_eq]
      rw [foldl_mulmod_cast (fun m =>
        ((xs.getD j 0 : Nat) : Int) - ((xs.getD m 0 : Nat) : Int)) j (List.range k) 1]
      rw [list_range_filter_prod (fun m =>
        ((((xs.getD j 0 : Nat) : Int) - ((xs.getD m 0 : Nat) : Int) : Int) : ZMod P256)) k j]
      rw [Int.cast_one, one_mul]
      refine Finset.prod_congr rfl ?_
      intro m _
      push_cast
      rfl
    have hden0 : 0 ≤ (lagNumDen xs k j).2 := by
      rw [hden_eq]
      exact foldl_mulmod_nonneg _ j (List.range k) 1 (by norm_num)
    have hdenne : (((lagNumDen xs k j).2 : Int) : ZMod P256) ≠ 0 := by
      rw [hdenc]
      rw [Finset.prod_ne_zero_iff]
      intro m hm
      rw [Finset.mem_erase, Finset.mem_range] at hm
      exact hvne j m hj hm.2 (Ne.symm hm.1)
    have hinv : (((modinvP (lagNumDen xs k j).2.toNat : Nat) : Int) : ZMod P256) =
        ((((lagNumDen xs k j).2 : Int) : ZMod P256))⁻¹ := by
      have hmc := modinvP_cast ((lagNumDen xs k j).2) hden0 hdenne
      rw [← hmc]
      push_cast
      rfl
    have hYj : ((ys.getD j 0 : Nat) : ZMod P256) = (polyOfZ cs).eval (v j) := by
      rw [hY j hj, evalPoly_cast]
    have hbasis : (Lagrange.basis (Finset.range k) v j).eval 0 =
        ∏ m ∈ (Finset.range k).erase j, ((v j - v m)⁻¹ * (0 - v m)) := by
      unfold Lagrange.basis
      rw [Polynomial.eval_prod]
      refine Finset.prod_congr rfl ?_
      intro m _
      unfold Lagrange.basisDivisor
      simp only [Polynomial.eval_mul, Polynomial.eval_C, Polynomial.eval_sub, Polynomial.eval_X]
    -- assemble the term
    unfold lagTerm
    rw [Int.cast_mul, intCast_modP, Int.cast_mul]
    rw [hnumc, hinv, hdenc, hbasis, ← hYj]
    have hcastY : (((ys.getD j 0 : Nat) : Int) : ZMod P256) =
        ((ys.getD j 0 : Nat) : ZMod P256) := by
      push_cast
      rfl
    rw [hcastY]
    rw [Finset.prod_mul_distrib]
    rw [Finset.prod_inv_distrib]
    have hneg : ∏ m ∈ (Finset.range k).erase j, (0 - v m) =
        ∏ m ∈ (Finset.range k).erase j, (-(v m)) := by
      refine Finset.prod_congr rfl ?_
      intro m _
      ring
    rw [hneg]
    ring
  -- assemble the sum
  unfold combineSum
  rw [foldl_addmod_cast (fun j => lagTerm xs ys k j) (List.range k) 0]
  rw [list_range_map_sum (fun j => ((lagTerm xs ys k j : Int) : ZMod P256)) k]
  rw [Int.cast_zero, zero_add]
  rw [Finset.sum_congr rfl (fun j hj => hterm j (Finset.mem_range.mp hj))]
  exact heval.symm

/-- C4 amended: for every 32-byte secret whose big-endian integer value is
BELOW the secp256k1 prime `P` (the code silently reduces larger values mod
`P`, see the counterexample), and all `(n, k)` with `1 < k ≤ n ≤ 255`,
`split_secret` returns exactly `n` shares with x-coordinates `1..n` in order,
and `combine_shares` applied to any `k` distinct ones of those shares returns
exactly the original 32 bytes. -/
theorem c4_amended (secret : List Nat) (n k : Nat) (rand : List Nat)
    (shares sel : List (Nat × Nat))
    (hbytes : ∀ b ∈ secret, b < 256)
    (hval : bytesToNatBE secret < P256)
    (hsplit : split_secret secret n k rand = .ok shares)
    (hselk : sel.length = k)
    (hsub : ∀ p ∈ sel, p ∈ shares)
    (hnd : (sel.map (fun t => t.1)).Nodup) :
    shares.map (fun t => t.1) = (List.range n).map (fun i => i + 1) ∧
    combine_shares sel k = .ok secret := by
  -- unpack the successful split
  have h32 : secret.length = 32 := by
    by_contra hc
    unfold split_secret at hsplit
    rw [if_pos hc] at hsplit
    exact Except.noConfusion hsplit
  have hkn : 1 < k ∧ k ≤ n ∧ n ≤ 255 := by
    by_contra hc
    unfold split_secret at hsplit
    rw [if_neg (by simp [h32]), if_pos hc] at hsplit
    exact Except.noConfusion hsplit
  have hs0 : bytesToNatBE secret % P256 = bytesToNatBE secret := Nat.mod_eq_of_lt hval
  have hshares : shares = (List.range n).map
      (fun i => (i + 1, evalPoly (bytesToNatBE secret ::
        (rand.take (k - 1)).map (· % P256)) (i + 1))) := by
    unfold split_secret at hsplit
    rw [if_neg (by simp [h32]), if_neg (not_not_intro hkn)] at hsplit
    rw [hs0] at hsplit
    exact (Except.ok.inj hsplit).symm
  refine ⟨?_, ?_⟩
  · rw [hshares, List.map_map]
    rfl
  · -- reconstruction
    have hklt : ¬(sel.length < k) := by omega
    unfold combine_shares
    rw [if_neg hklt]
    have htake : sel.take k = sel := by
      rw [← hselk]
      exact List.take_length sel
    rw [htake]
    have hxlen : (sel.map (fun t => t.1)).length = k := by
      rw [List.length_map, hselk]
    have hylen : (sel.map (fun t => t.2)).length = k := by
      rw [List.length_map, hselk]
    -- facts about the selected coordinates
    have hsel : ∀ j, j < k → ∃ i, i < n ∧
        (sel.map (fun t => t.1)).getD j 0 = i + 1 ∧
        (sel.map (fun t => t.2)).getD j 0 = evalPoly (bytesToNatBE secret ::
          (rand.take (k - 1)).map (· % P256)) (i + 1) := by
      intro j hj
      have hj' : j < sel.length := by omega
      have hmem : sel[j] ∈ sel := List.getElem_mem hj'
      have hmem2 := hsub _ hmem
      rw [hshares] at hmem2
      obtain ⟨i, hi, heq⟩ := List.mem_map.mp hmem2
      rw [List.mem_range] at hi
      refine ⟨i, hi, ?_, ?_⟩
      · rw [List.getD_eq_getElem _ 0 (by omega), List.getElem_map]
        rw [← heq]
      · rw [List.getD_eq_getElem _ 0 (by omega), List.getElem_map]
        rw [← heq]
    have hX : ∀ j, j < k → (sel.map (fun t => t.1)).getD j 0 ≤ 255 := by
      intro j hj
      obtain ⟨i, hi, hx, _⟩ := hsel j hj
      omega
    have hXinj : ∀ j j', j < k → j' < k →
        (sel.map (fun t => t.1)).getD j 0 = (sel.map (fun t => t.1)).getD j' 0 → j = j' := by
      intro j j' hj hj' he
      rw [List.getD_eq_getElem (sel.map (fun t => t.1)) 0
            (show j < (sel.map (fun t => t.1)).length by omega),
          List.getD_eq_getElem (sel.map (fun t => t.1)) 0
            (show j' < (sel.map (fun t => t.1)).length by omega)] at he
      exact (List.Nodup.getElem_inj_iff hnd).mp he
    have hY : ∀ j, j < k → (sel.map (fun t => t.2)).getD j 0 =
        evalPoly (bytesToNatBE secret :: (rand.take (k - 1)).map (· % P256))
          ((sel.map (fun t => t.1)).getD j 0) := by
      intro j hj
      obtain ⟨i, hi, hx, hy⟩ := hsel j hj
      rw [hx, hy]
    have hlen : (bytesToNatBE secret :: (rand.take (k - 1)).map (· % P256)).length ≤ k := by
      simp only [List.length_cons, List.length_map, List.length_take]
      omega
    have hmain := combineSum_eval (bytesToNatBE secret ::
      (rand.take (k - 1)).map (· % P256)) (sel.map (fun t => t.1)) (sel.map (fun t => t.2))
      k hlen hX hXinj hY
    rw [polyOfZ_eval_zero] at hmain
    -- bounds on the accumulated sum
    have hb := foldl_addmod_bounds (fun j => lagTerm (sel.map (fun t => t.1))
      (sel.map (fun t => t.2)) k j) (List.range k) 0 le_rfl
      (by exact_mod_cast P256_pos)
    have hb0 : 0 ≤ combineSum (sel.map (fun t => t.1)) (sel.map (fun t => t.2)) k := hb.1
    have hb1 : combineSum (sel.map (fun t => t.1)) (sel.map (fun t => t.2)) k <
        (P256 : Int) := hb.2
    have htn : (combineSum (sel.map (fun t => t.1)) (sel.map (fun t => t.2)) k).toNat <
        P256 := by omega
    have hcast2 : (((combineSum (sel.map (fun t => t.1)) (sel.map (fun t => t.2)) k).toNat :
        Nat) : ZMod P256) = ((bytesToNatBE secret : Nat) : ZMod P256) := by
      rw [← hmain]
      have hnn := Int.toNat_of_nonneg hb0
      calc (((combineSum (sel.map (fun t => t.1)) (sel.map (fun t => t.2)) k).toNat :
          Nat) : ZMod P256)
          = ((((combineSum (sel.map (fun t => t.1)) (sel.map (fun t => t.2)) k).toNat :
            Nat) : Int) : ZMod P256) := by push_cast; rfl
        _ = ((combineSum (sel.map (fun t => t.1)) (sel.map (fun t => t.2)) k : Int) :
            ZMod P256) := by rw [hnn]
    have e1 := ZMod.val_cast_of_lt htn
    have e2 := ZMod.val_cast_of_lt hval
    rw [hcast2] at e1
    have hfinal : (combineSum (sel.map (fun t => t.1)) (sel.map (fun t => t.2)) k).toNat =
        bytesToNatBE secret := e1.symm.trans e2
    rw [hfinal]
    rw [← h32]
    rw [natToBytesBE_bytesToNatBE secret hbytes]

theorem c4_amended_witness :
    ([(1, 12), (2, 17), (3, 22)] : List (Nat × Nat)).map (fun t => t.1) =
      (List.range 3).map (fun i => i + 1) ∧
    combine_shares [(3, 22), (1, 12)] 2 = .ok (List.replicate 31 0 ++ [7]) :=
  c4_amended (List.replicate 31 0 ++ [7]) 3 2 [5] [(1, 12), (2, 17), (3, 22)]
    [(3, 22), (1, 12)]
    (by decide) (by decide) (by decide) (by decide) (by decide) (by decide)

/-! ## Base64 (utils/b64e.py, utils/b64d.py)

URL-safe alphabet, padding stripped on encode; the decoder re-pads and
decodes (CPython's default non-strict decoder ignores surplus bits in a
trailing group and would silently DISCARD non-alphabet characters; the
embedding reports non-alphabet characters as an error instead — every
input it is applied to in this development is alphabet-only). -/

def b64Char (n : Nat) : Char :=
  if n < 26 then Char.ofNat (65 + n)
  else if n < 52 then Char.ofNat (97 + (n - 26))
  else if n < 62 then Char.ofNat (48 + (n - 52))
  else if n = 62 then '-' else '_'

def b64e : List Nat → String
  | b0 :: b1 :: b2 :: rest =>
      String.mk [b64Char (b0 / 4), b64Char (b0 % 4 * 16 + b1 / 16),
        b64Char (b1 % 16 * 4 + b2 / 64), b64Char (b2 % 64)] ++ b64e rest
  | [b0, b1] =>
      String.mk [b64Char (b0 / 4), b64Char (b0 % 4 * 16 + b1 / 16), b64Char (b1 % 16 * 4)]
  | [b0] => String.mk [b64Char (b0 / 4), b64Char (b0 % 4 * 16)]
  | [] => ""

def b64Val (c : Char) : Option Nat :=
  let n := c.toNat
  if 65 ≤ n ∧ n ≤ 90 then some (n - 65)
  else if 97 ≤ n ∧ n ≤ 122 then some (n - 97 + 26)
  else if 48 ≤ n ∧ n ≤ 57 then some (n - 48 + 52)
  else if n = 45 then some 62
  else if n = 95 then some 63
  else none

def b64Group : List Nat → Except String (List Nat)
  | v0 :: v1 :: v2 :: v3 :: rest =>
      match b64Group rest with
      | .error e => .error e
      | .ok tail => .ok ([v0 * 4 + v1 / 16, v1 % 16 * 16 + v2 / 4, v2 % 4 * 64 + v3] ++ tail)
  | [v0, v1, v2] => .ok [v0 * 4 + v1 / 16, v1 % 16 * 16 + v2 / 4]
  | [v0, v1] => .ok [v0 * 4 + v1 / 16]
  | [_] => .error "Invalid base64-encoded string"
  | [] => .ok []

def b64d (s : String) : Except String (List Nat) :=
  match s.data.mapM b64Val with
  | none => .error "non-alphabet character"
  | some vals => b64Group vals

theorem b64Val_b64Char : ∀ v : Fin 64, b64Val (b64Char v.val) = some v.val := by decide

theorem b64d_b64e (l : List Nat) (hl : ∀ b ∈ l, b < 256) : b64d (b64e l) = .ok l := by
  have hval : ∀ v, v < 64 → b64Val (b64Char v) = some v := fun v hv => b64Val_b64Char ⟨v, hv⟩
  induction l using b64e.induct with
  | case1 b0 b1 b2 rest ih =>
      have h0 : b0 < 256 := hl b0 (by simp)
      have h1 : b1 < 256 := hl b1 (by simp)
      have h2 : b2 < 256 := hl b2 (by simp)
      have hrest : ∀ b ∈ rest, b < 256 := fun b hb => hl b (by simp [hb])
      have ihr := ih hrest
      unfold b64d at ihr ⊢
      rw [b64e]
      have hdata : (String.mk [b64Char (b0 / 4), b64Char (b0 % 4 * 16 + b1 / 16),
          b64Char (b1 % 16 * 4 + b2 / 64), b64Char (b2 % 64)] ++ b64e rest).data =
          [b64Char (b0 / 4), b64Char (b0 % 4 * 16 + b1 / 16),
           b64Char (b1 % 16 * 4 + b2 / 64), b64Char (b2 % 64)] ++ (b64e rest).data := rfl
      rw [hdata, List.mapM_append]
      simp only [List.mapM_cons, List.mapM_nil]
      rw [hval _ (by omega), hval _ (by omega), hval _ (by omega), hval _ (by omega)]
      cases hm : (b64e rest).data.mapM b64Val with
      | none => rw [hm] at ihr; exact absurd ihr (by simp)
      | some vals =>
          rw [hm] at ihr
          have ihr2 : b64Group vals = Except.ok rest := ihr
          simp only [Option.pure_def, Option.bind_eq_bind, Option.bind_some,
            Option.some_bind]
          show b64Group (b0 / 4 :: (b0 % 4 * 16 + b1 / 16) :: (b1 % 16 * 4 + b2 / 64) ::
            b2 % 64 :: vals) = Except.ok (b0 :: b1 :: b2 :: rest)
          rw [b64Group, ihr2]
          have e0 : b0 / 4 * 4 + (b0 % 4 * 16 + b1 / 16) / 16 = b0 := by omega
          have e1 : (b0 % 4 * 16 + b1 / 16) % 16 * 16 + (b1 % 16 * 4 + b2 / 64) / 4 = b1 := by
            omega
          have e2 : (b1 % 16 * 4 + b2 / 64) % 4 * 64 + b2 % 64 = b2 := by omega
          rw [e0, e1, e2]
          rfl
  | case2 b0 b1 =>
      have h0 : b0 < 256 := hl b0 (by simp)
      have h1 : b1 < 256 := hl b1 (by simp)
      unfold b64d
      rw [b64e]
      show (match ([b64Char (b0 / 4), b64Char (b0 % 4 * 16 + b1 / 16),
          b64Char (b1 % 16 * 4)] : List Char).mapM b64Val with
        | none => Except.error "non-alphabet character"
        | some vals => b64Group vals) = .ok [b0, b1]
      rw [List.mapM_cons, List.mapM_cons, List.mapM_cons, List.mapM_nil]
      rw [hval _ (by omega), hval _ (by omega), hval _ (by omega)]
      show b64Group [b0 / 4, b0 % 4 * 16 + b1 / 16, b1 % 16 * 4] = .ok [b0, b1]
      rw [b64Group]
      have e0 : b0 / 4 * 4 + (b0 % 4 * 16 + b1 / 16) / 16 = b0 := by omega
      have e1 : (b0 % 4 * 16 + b1 / 16) % 16 * 16 + b1 % 16 * 4 / 4 = b1 := by omega
      rw [e0, e1]
  | case3 b0 =>
      have h0 : b0 < 256 := hl b0 (by simp)
      unfold b64d
      rw [b64e]
      show (match ([b64Char (b0 / 4), b64Char (b0 % 4 * 16)] : List Char).mapM b64Val with
        | none => Except.error "non-alphabet character"
        | some vals => b64Group vals) = .ok [b0]
      rw [List.mapM_cons, List.mapM_cons, List.mapM_nil]
      rw [hval _ (by omega), hval _ (by omega)]
      show b64Group [b0 / 4, b0 % 4 * 16] = .ok [b0]
      rw [b64Group]
      have e0 : b0 / 4 * 4 + b0 % 4 * 16 / 16 = b0 := by omega
      rw [e0]
  | case4 => rfl

/-! ## Envelope header (storage/header.py)

`Recipient` and `FileHeader` mirror the dataclasses field for field.
Python `Optional[str]` fields are `Option String` (with Python truthiness:
`None` and `""` are both falsy); unbounded Python ints are `Int`.
The `kdf` dict is modelled as an association list of integer-valued Scrypt
parameters, which is its only shape in this code base. -/

inductive JScalar where
  | str (s : String)
  | num (n : Int)
  | jbool (b : Bool)
  | jnull
deriving DecidableEq, Repr

structure Recipient where
  kid : String
  scheme : String
  enc_key : String
  ephemeral_public : Option String := none
  nonce : Option String := none
  share_index : Option Int := none
deriving DecidableEq, Repr

structure FileHeader where
  version : String := "1"
  aead : String := "AESGCM"
  enc : String := "RSA-OAEP"
  nonce : String := ""
  recipients : List Recipient := []
  created_at : Int := 0
  chunked : Bool := true
  chunk_size : Option Int := none
  total_size : Option Int := none
  threshold : Option Int := none
  aad_tag : Option String := none
  kdf : Option (List (String × Int)) := none
  salt : Option String := none
deriving DecidableEq, Repr

/-- Python truthiness of an `Optional[str]`: `None` and `""` are falsy. -/
def truthyS : Option String → Bool
  | none => false
  | some s => !(s == "")

/-- Python truthiness of an `Optional[int]`: `None` and `0` are falsy. -/
def truthyI : Option Int → Bool
  | none => false
  | some n => !(n == 0)

/-- Python truthiness of an `Optional[dict]`: `None` and `{}` are falsy. -/
def truthyD : Option (List (String × Int)) → Bool
  | none => false
  | some l => !(l == [])

/-- Embedding of `Recipient.validate` (header.py lines 27–37). -/
def Recipient.validate (r : Recipient) : Except String Unit :=
  if ¬(r.scheme = "RSA-OAEP" ∨ r.scheme = "X25519-KEM") then
    .error ("Unsupported key wrap scheme: " ++ r.scheme)
  else if r.enc_key = "" then .error "Recipient missing wrapped key material"
  else if r.scheme = "X25519-KEM" then
    if ¬truthyS r.ephemeral_public ∨ ¬truthyS r.nonce then
      .error "X25519 recipient missing metadata"
    else .ok ()
  else
    if truthyS r.ephemeral_public ∨ truthyS r.nonce then
      .error "RSA recipient should not carry X25519 metadata"
    else .ok ()

def validateRecipients : List Recipient → Except String Unit
  | [] => .ok ()
  | r :: t =>
      match r.validate with
      | .error e => .error e
      | .ok () => validateRecipients t

/-- Embedding of `FileHeader.validate` (header.py lines 89–112). -/
def FileHeader.validate (h : FileHeader) : Except String Unit :=
  if h.version = "" then .error "Missing header version"
  else if h.version ≠ "1" then .error ("Unsupported header version: " ++ h.version)
  else if ¬(h.aead = "AESGCM" ∨ h.aead = "CHACHA20") then
    .error ("Unsupported AEAD: " ++ h.aead)
  else if ¬(h.enc = "RSA-OAEP" ∨ h.enc = "X25519-KEM") then
    .error ("Unsupported key wrap: " ++ h.enc)
  else if h.nonce = "" then .error "Missing content nonce"
  else if h.recipients = [] then .error "Header contains no recipients"
  else
    match validateRecipients h.recipients with
    | .error e => .error e
    | .ok () =>
        if h.chunked then
          match h.chunk_size with
          | none => .error "Invalid chunk_size for chunked ciphertext"
          | some cs => if cs ≤ 0 then .error "Invalid chunk_size for chunked ciphertext"
                       else .ok ()
        else .ok ()

/-! ### Canonical JSON rendering (json.dumps with sort_keys and ",", ":") -/

def hexDigit (n : Nat) : Char := if n < 10 then Char.ofNat (48 + n) else Char.ofNat (87 + (n - 10))

def hex4 (n : Nat) : String :=
  String.mk [hexDigit (n / 4096 % 16), hexDigit (n / 256 % 16), hexDigit (n / 16 % 16),
    hexDigit (n % 16)]

def uEscape (n : Nat) : String :=
  if n < 0x10000 then "\\u" ++ hex4 n
  else "\\u" ++ hex4 (0xD800 + (n - 0x10000) / 0x400) ++ "\\u" ++ hex4 (0xDC00 + (n - 0x10000) % 0x400)

def jsonEscChar (c : Char) : String :=
  if c.toNat = 34 then "\\\""
  else if c.toNat = 92 then "\\\\"
  else if c.toNat = 10 then "\\n"
  else if c.toNat = 13 then "\\r"
  else if c.toNat = 9 then "\\t"
  else if c.toNat = 8 then "\\b"
  else if c.toNat = 12 then "\\f"
  else if c.toNat < 32 ∨ 128 ≤ c.toNat then uEscape c.toNat
  else String.singleton c

def jsonStr (s : String) : String := "\"" ++ String.join (s.data.map jsonEscChar) ++ "\""

/-- Code-point lexicographic order on strings, as Python compares `str`. -/
def lexLtCh : List Char → List Char → Bool
  | [], [] => false
  | [], _ :: _ => true
  | _ :: _, [] => false
  | a :: as, b :: bs =>
      if a.toNat < b.toNat then true
      else if b.toNat < a.toNat then false
      else lexLtCh as bs

def strLtB (a b : String) : Bool := lexLtCh a.data b.data

def insertByKey (x : String × String) : List (String × String) → List (String × String)
  | [] => [x]
  | y :: t => if strLtB x.1 y.1 then x :: y :: t else y :: insertByKey x t

def sortByKey : List (String × String) → List (String × String)
  | [] => []
  | x :: t => insertByKey x (sortByKey t)

/-- Render a JSON object from (key, already-rendered-value) pairs: keys are
sorted (json.dumps `sort_keys=True`) and the separators are `","`/`":"`. -/
def renderSortedObj (pairs : List (String × String)) : String :=
  "\x7b" ++ String.intercalate ","
    ((sortByKey pairs).map (fun kv => jsonStr kv.1 ++ ":" ++ kv.2)) ++ "\x7d"

def utf8Char (c : Char) : List Nat :=
  let n := c.toNat
  if n < 0x80 then [n]
  else if n < 0x800 then [0xC0 + n / 64, 0x80 + n % 64]
  else if n < 0x10000 then [0xE0 + n / 4096, 0x80 + n / 64 % 64, 0x80 + n % 64]
  else [0xF0 + n / 0x40000, 0x80 + n / 4096 % 64, 0x80 + n / 64 % 64, 0x80 + n % 64]

def utf8Bytes (s : String) : List Nat := (s.data.map utf8Char).flatten

/-- Embedding of `FileHeader.aad_bytes` (header.py lines 143–156): the
canonical sorted-key JSON of the nine listed fields, `None`-valued fields
filtered out, UTF-8 encoded. -/
def FileHeader.aad_bytes (h : FileHeader) : List Nat :=
  utf8Bytes (renderSortedObj (([
    ("version", some (jsonStr h.version)),
    ("aead", some (jsonStr h.aead)),
    ("enc", some (jsonStr h.enc)),
    ("nonce", some (jsonStr h.nonce)),
    ("created_at", some (toString h.created_at)),
    ("chunked", some (if h.chunked then "true" else "false")),
    ("chunk_size", h.chunk_size.map (fun n => toString n)),
    ("threshold", h.threshold.map (fun n => toString n)),
    ("salt", h.salt.map jsonStr)
  ] : List (String × Option String)).filterMap
    (fun kv => kv.2.map (fun vv => (kv.1, vv)))))

/-! ### Parsed JSON dicts

`RecipDict`/`HeaderDict` model the dict `json.loads` yields for a recipient
entry / header line: a record over every key either code generation reads,
absent keys being `none`.  (`json.loads (json.dumps d) == d` for such dicts
is a property of Python's json library; this development composes the
serializer and parser at the dict level accordingly.)  A field holding
`some .jnull` models a key that is present with JSON `null` — `dict.get`
returns `None` for both, which is what `pyNone` captures. -/

structure RecipDict where
  kid : Option JScalar := none
  scheme : Option JScalar := none
  ek : Option JScalar := none
  ek_b64 : Option JScalar := none
  epk : Option JScalar := none
  epk_pem_b64 : Option JScalar := none
  nonce : Option JScalar := none
  nonce_b64 : Option JScalar := none
  share_index : Option JScalar := none
deriving DecidableEq, Repr

structure HeaderDict where
  version : Option JScalar := none
  v : Option JScalar := none
  aead : Option JScalar := none
  alg : Option JScalar := none
  enc : Option JScalar := none
  nonce : Option JScalar := none
  content_nonce_b64 : Option JScalar := none
  created_at : Option JScalar := none
  chunked : Option JScalar := none
  chunk : Option JScalar := none
  chunk_size : Option JScalar := none
  total_size : Option JScalar := none
  threshold : Option JScalar := none
  threshold_k : Option JScalar := none
  aad_tag : Option JScalar := none
  kdf : Option (List (String × Int)) := none
  salt : Option JScalar := none
  recipients : Option (List RecipDict) := none
deriving DecidableEq, Repr

/-- Python truthiness of a JSON scalar. -/
def truthyJ : JScalar → Bool
  | .str s => !(s == "")
  | .num n => !(n == 0)
  | .jbool b => b
  | .jnull => false

/-- Whether a `dict.get` result is Python `None` (key absent, or null). -/
def pyNone : Option JScalar → Bool
  | none => true
  | some .jnull => true
  | some _ => false

/-- Python `x or y` over `dict.get` results. -/
def orJ : Option JScalar → Option JScalar → Option JScalar
  | some x, y => if truthyJ x then some x else y
  | none, y => y

/-- Python truthiness of a `dict.get` result. -/
def truthyO : Option JScalar → Bool
  | none => false
  | some j => truthyJ j

/-- Python `str()` of a JSON scalar. -/
def pyStr : JScalar → String
  | .str s => s
  | .num n => toString n
  | .jbool b => if b then "True" else "False"
  | .jnull => "None"

/-- Python `int()` of a JSON scalar (a non-numeric string raises). -/
def pyInt : JScalar → Except String Int
  | .num n => .ok n
  | .jbool b => .ok (if b then 1 else 0)
  | .str s =>
      match s.toInt? with
      | some n => .ok n
      | none => .error "invalid literal for int()"
  | .jnull => .error "int() argument must not be None"

/-- Read a `dict.get` result expected to hold a string, as Python code that
stores it in a str-typed slot would.  (Python itself would store a non-str
value unchecked; such dicts never arise from `to_json` output, which is the
only source this development parses.) -/
def getStr : Option JScalar → Except String (Option String)
  | none => .ok none
  | some .jnull => .ok none
  | some (.str s) => .ok (some s)
  | some _ => .error "TypeError: expected str"

/-- Read a `dict.get` result expected to hold an int, similarly. -/
def getInt : Option JScalar → Except String (Option Int)
  | none => .ok none
  | some .jnull => .ok none
  | some (.num n) => .ok (some n)
  | some _ => .error "TypeError: expected int"

/-- Python `str.upper()`. -/
def pyUpper (s : String) : String := String.mk (s.data.map Char.toUpper)

/-- Apply `.upper()` to a `get(...) or default` result: attribute error on a
truthy non-string. -/
def upperOf : Option JScalar → Except String String
  | some (.str s) => .ok (pyUpper s)
  | _ => .error "AttributeError: upper"

/-- Embedding of `Recipient.to_dict` (header.py lines 39–52). -/
def Recipient.to_dict (r : Recipient) : RecipDict :=
  { kid := some (.str r.kid)
    scheme := some (.str r.scheme)
    ek := some (.str r.enc_key)
    epk := if truthyS r.ephemeral_public then some (.str (r.ephemeral_public.getD "")) else none
    nonce := if truthyS r.nonce then some (.str (r.nonce.getD "")) else none
    share_index := r.share_index.map .num }

/-- Embedding of `Recipient.from_dict` (header.py lines 54–70). -/
def Recipient.from_dict (p : RecipDict) : Except String Recipient := do
  if ¬truthyO p.kid then throw "Recipient missing kid"
  let kid ← match p.kid with
    | some (.str s) => pure s
    | _ => throw "TypeError: kid"
  let scheme ← upperOf (orJ p.scheme (some (.str "RSA-OAEP")))
  let ekJ := orJ p.ek p.ek_b64
  if ¬truthyO ekJ then throw "Recipient missing wrapped key"
  let enc_key ← match ekJ with
    | some (.str s) => pure s
    | _ => throw "TypeError: ek"
  let ephemeral_public ← getStr (orJ p.epk p.epk_pem_b64)
  let nonce ← getStr (orJ p.nonce p.nonce_b64)
  let share_index ← getInt p.share_index
  pure { kid := kid, scheme := scheme, enc_key := enc_key,
         ephemeral_public := ephemeral_public, nonce := nonce, share_index := share_index }

/-- Embedding of `FileHeader.to_dict` (header.py lines 114–138): validation
runs first; optional fields are emitted only when set (for `threshold`,
`aad_tag`, `kdf`, `salt`: only when truthy). -/
def FileHeader.to_dict (h : FileHeader) : Except String HeaderDict :=
  match h.validate with
  | .error e => .error e
  | .ok () => .ok
      { version := some (.str h.version)
        aead := some (.str h.aead)
        enc := some (.str h.enc)
        nonce := some (.str h.nonce)
        created_at := some (.num h.created_at)
        chunked := some (.jbool h.chunked)
        recipients := some (h.recipients.map Recipient.to_dict)
        chunk_size := h.chunk_size.map .num
        total_size := h.total_size.map .num
        threshold := if truthyI h.threshold then (h.threshold.map .num) else none
        aad_tag := if truthyS h.aad_tag then (h.aad_tag.map .str) else none
        kdf := if truthyD h.kdf then h.kdf else none
        salt := if truthyS h.salt then (h.salt.map .str) else none }

def renderJScalar : JScalar → String
  | .str s => jsonStr s
  | .num n => toString n
  | .jbool b => if b then "true" else "false"
  | .jnull => "null"

def RecipDict.render (r : RecipDict) : String :=
  renderSortedObj (([
    ("kid", r.kid.map renderJScalar),
    ("scheme", r.scheme.map renderJScalar),
    ("ek", r.ek.map renderJScalar),
    ("ek_b64", r.ek_b64.map renderJScalar),
    ("epk", r.epk.map renderJScalar),
    ("epk_pem_b64", r.epk_pem_b64.map renderJScalar),
    ("nonce", r.nonce.map renderJScalar),
    ("nonce_b64", r.nonce_b64.map renderJScalar),
    ("share_index", r.share_index.map renderJScalar)
  ] : List (String × Option String)).filterMap
    (fun kv => kv.2.map (fun vv => (kv.1, vv))))

def renderKdf (l : List (String × Int)) : String :=
  renderSortedObj (l.map (fun kv => (kv.1, toString kv.2)))

def HeaderDict.render (d : HeaderDict) : String :=
  renderSortedObj (([
    ("version", d.version.map renderJScalar),
    ("v", d.v.map renderJScalar),
    ("aead", d.aead.map renderJScalar),
    ("alg", d.alg.map renderJScalar),
    ("enc", d.enc.map renderJScalar),
    ("nonce", d.nonce.map renderJScalar),
    ("content_nonce_b64", d.content_nonce_b64.map renderJScalar),
    ("created_at", d.created_at.map renderJScalar),
    ("chunked", d.chunked.map renderJScalar),
    ("chunk", d.chunk.map renderJScalar),
    ("chunk_size", d.chunk_size.map renderJScalar),
    ("total_size", d.total_size.map renderJScalar),
    ("threshold", d.threshold.map renderJScalar),
    ("threshold_k", d.threshold_k.map renderJScalar),
    ("aad_tag", d.aad_tag.map renderJScalar),
    ("kdf", d.kdf.map renderKdf),
    ("salt", d.salt.map renderJScalar),
    ("recipients", d.recipients.map (fun rs =>
      "[" ++ String.intercalate "," (rs.map RecipDict.render) ++ "]"))
  ] : List (String × Option String)).filterMap
    (fun kv => kv.2.map (fun vv => (kv.1, vv))))

/-- Embedding of `FileHeader.to_json` (header.py lines 140–141):
`json.dumps(self.to_dict(), separators=(",", ":"), sort_keys=True)`. -/
def FileHeader.to_json (h : FileHeader) : Except String String :=
  (h.to_dict).map HeaderDict.render

/-- Embedding of `FileHeader.from_json` (header.py lines 161–193), applied
after `json.loads` (so it takes the parsed dict); `now` is `int(time.time())`,
consulted only when `created_at` is absent or falsy. -/
def FileHeader.from_dict (now : Int) (d : HeaderDict) : Except String FileHeader := do
  let version := pyStr ((orJ d.version (orJ d.v (some (.str "1")))).getD (.str "1"))
  let recipients ← (d.recipients.getD []).mapM Recipient.from_dict
  let chunked := if pyNone d.chunked then truthyO d.chunk
                 else truthyO d.chunked
  let chunk_size ← getInt d.chunk_size
  let thJ := if pyNone d.threshold then d.threshold_k else d.threshold
  let threshold ← if truthyO thJ then
      (match thJ with
       | some j => (pyInt j).map some
       | none => pure none)
    else pure none
  let created_at ← pyInt ((orJ d.created_at (some (.num now))).getD (.num now))
  let aead ← upperOf (orJ d.aead (orJ d.alg (some (.str "AESGCM"))))
  let enc ← upperOf (orJ d.enc (some (.str "RSA-OAEP")))
  let nonceS ← match orJ d.nonce (orJ d.content_nonce_b64 (some (.str ""))) with
    | some (.str s) => pure s
    | _ => throw "TypeError: nonce"
  let total_size ← getInt d.total_size
  let aad_tag ← getStr d.aad_tag
  let salt ← getStr d.salt
  let header : FileHeader :=
    { version := version, aead := aead, enc := enc, nonce := nonceS,
      recipients := recipients, created_at := created_at, chunked := chunked,
      chunk_size := chunk_size, total_size := total_size, threshold := threshold,
      aad_tag := aad_tag, kdf := d.kdf, salt := salt }
  let header := if ¬header.chunked then { header with chunk_size := none } else header
  match header.validate with
  | .error e => throw e
  | .ok () => pure header

/-- Embedding of `open_encrypted_writer` (file_io.py lines 28–34), header
part: the writer emits `header.to_json().encode("utf-8")` followed by the
two-byte separator `\n\n`; the chunk stream is appended afterwards. -/
def writerHeaderBytes (h : FileHeader) : Except String (List Nat) :=
  (h.to_json).map (fun s => utf8Bytes s ++ [10, 10])

/-! ### Claims C7 and C2 -/

/-- Recipient self-consistency as the claims describe it (and as
`Recipient.validate` checks it). -/
def recipConsistent (r : Recipient) : Prop :=
  (r.scheme = "RSA-OAEP" ∨ r.scheme = "X25519-KEM") ∧
  r.enc_key ≠ "" ∧
  (r.scheme = "X25519-KEM" → truthyS r.ephemeral_public = true ∧ truthyS r.nonce = true) ∧
  (r.scheme = "RSA-OAEP" → truthyS r.ephemeral_public = false ∧ truthyS r.nonce = false)

/-- Header acceptance condition exactly as claim C7 states it, including the
"nonce decodes to exactly 12 bytes" requirement. -/
def specValidClaim (h : FileHeader) : Prop :=
  h.version = "1" ∧
  (h.aead = "AESGCM" ∨ h.aead = "CHACHA20") ∧
  (h.enc = "RSA-OAEP" ∨ h.enc = "X25519-KEM") ∧
  (∃ bs, b64d h.nonce = .ok bs ∧ bs.length = 12) ∧
  h.recipients ≠ [] ∧
  (∀ r ∈ h.recipients, recipConsistent r) ∧
  (h.chunked = true → ∃ cs, h.chunk_size = some cs ∧ 0 < cs)

/-- Header acceptance condition as the code actually enforces it: the nonce
need only be NON-EMPTY; its base64 well-formedness and 12-byte length are
never checked by `validate`. -/
def validAmended (h : FileHeader) : Prop :=
  h.version = "1" ∧
  (h.aead = "AESGCM" ∨ h.aead = "CHACHA20") ∧
  (h.enc = "RSA-OAEP" ∨ h.enc = "X25519-KEM") ∧
  h.nonce ≠ "" ∧
  h.recipients ≠ [] ∧
  (∀ r ∈ h.recipients, recipConsistent r) ∧
  (h.chunked = true → ∃ cs, h.chunk_size = some cs ∧ 0 < cs)

def c7Header : FileHeader :=
  { version := "1", aead := "AESGCM", enc := "RSA-OAEP", nonce := "AAAA",
    recipients := [{ kid := "k", scheme := "RSA-OAEP", enc_key := "e" }],
    created_at := 1, chunked := false }

/-- C7 counterexample: the header `c7Header` carries the 4-character nonce
field `"AAAA"`, which decodes to THREE bytes, yet `FileHeader.validate`
accepts it — the code never decodes the nonce nor checks its length, so the
claimed "accepts iff … nonce decodes to exactly 12 bytes" equivalence is
false. -/
theorem c7_counterexample :
    FileHeader.validate c7Header = .ok () ∧
    b64d c7Header.nonce = .ok [0, 0, 0] ∧
    ¬ specValidClaim c7Header := by
  refine ⟨by decide, by decide, ?_⟩
  intro hc
  obtain ⟨-, -, -, ⟨bs, hbs, hlen⟩, -⟩ := hc
  have hd : b64d c7Header.nonce = .ok [0, 0, 0] := by decide
  rw [hd] at hbs
  have : ([0, 0, 0] : List Nat) = bs := Except.ok.inj hbs
  rw [← this] at hlen
  simp at hlen

theorem validateRecipients_iff (l : List Recipient) :
    validateRecipients l = .ok () ↔ ∀ r ∈ l, r.validate = .ok () := by
  induction l with
  | nil => simp [validateRecipients]
  | cons r t ih =>
      unfold validateRecipients
      cases hr : r.validate with
      | error e => simp [hr]
      | ok u =>
          cases u
          simp [hr, ih]

theorem recip_validate_iff (r : Recipient) : r.validate = .ok () ↔ recipConsistent r := by
  unfold Recipient.validate recipConsistent
  by_cases h1 : ¬(r.scheme = "RSA-OAEP" ∨ r.scheme = "X25519-KEM")
  · rw [if_pos h1]
    simp only [reduceCtorEq, false_iff]
    intro hc
    exact h1 hc.1
  · rw [if_neg h1]
    rw [not_not] at h1
    by_cases h2 : r.enc_key = ""
    · rw [if_pos h2]
      simp only [reduceCtorEq, false_iff]
      intro hc
      exact hc.2.1 h2
    · rw [if_neg h2]
      by_cases h3 : r.scheme = "X25519-KEM"
      · rw [if_pos h3]
        by_cases h4 : ¬truthyS r.ephemeral_public ∨ ¬truthyS r.nonce
        · rw [if_pos h4]
          simp only [reduceCtorEq, false_iff]
          intro hc
          have hx := hc.2.2.1 h3
          rcases h4 with h4 | h4
          · exact h4 (by simp [hx.1])
          · exact h4 (by simp [hx.2])
        · rw [if_neg h4]
          push_neg at h4
          constructor
          · intro _
            refine ⟨h1, h2, fun _ => ⟨by simpa using h4.1, by simpa using h4.2⟩, fun hr => ?_⟩
            rw [hr] at h3
            exact absurd h3 (by decide)
          · intro _
            rfl
      · rw [if_neg h3]
        have hrsa : r.scheme = "RSA-OAEP" := by tauto
        by_cases h4 : truthyS r.ephemeral_public ∨ truthyS r.nonce
        · rw [if_pos h4]
          simp only [reduceCtorEq, false_iff]
          intro hc
          have hx := hc.2.2.2 hrsa
          rcases h4 with h4 | h4
          · rw [hx.1] at h4
            exact absurd h4 (by decide)
          · rw [hx.2] at h4
            exact absurd h4 (by decide)
        · rw [if_neg h4]
          push_neg at h4
          constructor
          · intro _
            exact ⟨h1, h2, fun hx => absurd hx h3,
              fun _ => ⟨by simpa using h4.1, by simpa using h4.2⟩⟩
          · intro _
            rfl

theorem validate_iff_amended (h : FileHeader) : h.validate = .ok () ↔ validAmended h := by
  unfold FileHeader.validate validAmended
  by_cases h1 : h.version = ""
  · rw [if_pos h1]
    simp only [reduceCtorEq, false_iff]
    intro hc
    rw [h1] at hc
    exact absurd hc.1 (by decide)
  · rw [if_neg h1]
    by_cases h2 : h.version ≠ "1"
    · rw [if_pos h2]
      simp only [reduceCtorEq, false_iff]
      intro hc
      exact h2 hc.1
    · rw [if_neg h2]
      push_neg at h2
      by_cases h3 : ¬(h.aead = "AESGCM" ∨ h.aead = "CHACHA20")
      · rw [if_pos h3]
        simp only [reduceCtorEq, false_iff]
        intro hc
        exact h3 hc.2.1
      · rw [if_neg h3]
        push_neg at h3
        by_cases h4 : ¬(h.enc = "RSA-OAEP" ∨ h.enc = "X25519-KEM")
        · rw [if_pos h4]
          simp only [reduceCtorEq, false_iff]
          intro hc
          exact h4 hc.2.2.1
        · rw [if_neg h4]
          rw [not_not] at h4
          by_cases h5 : h.nonce = ""
          · rw [if_pos h5]
            simp only [reduceCtorEq, false_iff]
            intro hc
            exact hc.2.2.2.1 h5
          · rw [if_neg h5]
            by_cases h6 : h.recipients = []
            · rw [if_pos h6]
              simp only [reduceCtorEq, false_iff]
              intro hc
              exact hc.2.2.2.2.1 h6
            · rw [if_neg h6]
              cases hvr : validateRecipients h.recipients with
              | error e =>
                  simp only [reduceCtorEq, false_iff]
                  intro hc
                  have hmp := (validateRecipients_iff h.recipients).mpr
                    (fun r hr => (recip_validate_iff r).mpr (hc.2.2.2.2.2.1 r hr))
                  rw [hvr] at hmp
                  exact Except.noConfusion hmp
              | ok u =>
                  cases u
                  have hrecs : ∀ r ∈ h.recipients, recipConsistent r := fun r hr =>
                    (recip_validate_iff r).mp ((validateRecipients_iff h.recipients).mp hvr r hr)
                  by_cases h8 : h.chunked
                  · rw [h8]
                    simp only [if_true]
                    cases hcs : h.chunk_size with
                    | none =>
                        simp only [reduceCtorEq, false_iff]
                        intro hc
                        obtain ⟨cs, hcs2, -⟩ := hc.2.2.2.2.2.2 (by trivial)
                        exact absurd hcs2 (by simp)
                    | some cs =>
                        have hred : (match some cs with
                            | none =>
                                (Except.error "Invalid chunk_size for chunked ciphertext" :
                                  Except String Unit)
                            | some cs =>
                                if cs ≤ 0 then
                                  Except.error "Invalid chunk_size for chunked ciphertext"
                                else Except.ok ()) =
                            (if cs ≤ 0 then
                              Except.error "Invalid chunk_size for chunked ciphertext"
                            else (Except.ok () : Except String Unit)) := rfl
                        rw [hred]
                        by_cases h9 : cs ≤ 0
                        · rw [if_pos h9]
                          simp only [reduceCtorEq, false_iff]
                          intro hc
                          obtain ⟨cs2, hcs2, hpos⟩ := hc.2.2.2.2.2.2 (by trivial)
                          have hee : cs = cs2 := Option.some.inj hcs2
                          omega
                        · rw [if_neg h9]
                          constructor
                          · intro _
                            exact ⟨h2, h3, h4, h5, h6, hrecs,
                              fun _ => ⟨cs, rfl, by omega⟩⟩
                          · intro _
                            rfl
                  · simp only [h8, if_false]
                    constructor
                    · intro _
                      refine ⟨h2, h3, h4, h5, h6, hrecs, fun hc => ?_⟩
                      exact absurd hc (by simp)
                    · intro _
                      rfl

/-- C7 amended: `FileHeader.validate` accepts a header if and only if its
version is `"1"`, its AEAD and key-wrap scheme are in their enumerations,
its nonce field is NON-EMPTY (the code never base64-decodes it, so a nonce
of any decoded length — even invalid base64 — passes), its recipient list
is non-empty with every entry self-consistent with its scheme, and, when
chunked, a positive chunk size is present; any violation raises
InvalidHeader. -/
theorem c7_amended (h : FileHeader) : h.validate = .ok () ↔ validAmended h :=
  validate_iff_amended h

/-- Associated data the encryptor passes to the AEAD for chunk `index`
(encryptor.py lines 115–117 and 123/129): `header.aad_bytes()`, then the
user AAD when truthy, then `struct.pack(">I", index)`. -/
def encryptorAssoc (h : FileHeader) (aad : Option (List Nat)) (i : Nat) : List Nat :=
  (h.aad_bytes ++ (match aad with
    | some a => if a.isEmpty then [] else a
    | none => [])) ++ be32 i

/-- The canonical header-core JSON exactly as claim C2 spells it out: the
fields `{version, aead, enc, nonce, created_at, chunked, chunk_size,
threshold, salt}` with null-valued fields omitted, keys sorted (the sorted
order is alphabetical: aead, chunk_size?, chunked, created_at, enc, nonce,
salt?, threshold?, version), separators `","` and `":"`. -/
def specAadCore (h : FileHeader) : String :=
  "\x7b" ++ String.intercalate ","
    (["\"aead\":" ++ jsonStr h.aead]
      ++ (match h.chunk_size with
          | some n => ["\"chunk_size\":" ++ toString n]
          | none => [])
      ++ ["\"chunked\":" ++ (if h.chunked then "true" else "false"),
          "\"created_at\":" ++ toString h.created_at,
          "\"enc\":" ++ jsonStr h.enc,
          "\"nonce\":" ++ jsonStr h.nonce]
      ++ (match h.salt with
          | some s => ["\"salt\":" ++ jsonStr s]
          | none => [])
      ++ (match h.threshold with
          | some t => ["\"threshold\":" ++ toString t]
          | none => [])
      ++ ["\"version\":" ++ jsonStr h.version]) ++ "\x7d"

theorem aad_bytes_spec (h : FileHeader) : h.aad_bytes = utf8Bytes (specAadCore h) := by
  unfold FileHeader.aad_bytes specAadCore
  cases h.chunk_size <;> cases h.threshold <;> cases h.salt <;> rfl

/-- C2 confirmed: the associated data authenticated with chunk `i` is the
canonical sorted-key JSON of the nine header-core fields (null fields
omitted, separators `","`/`":"`), followed by the caller-supplied AAD when
one was given, followed by the 32-bit big-endian chunk index. -/
theorem c2_aad_binding (h : FileHeader) (aad : Option (List Nat)) (i : Nat)
    (hi : i < 2 ^ 32) :
    encryptorAssoc h aad i =
      utf8Bytes (specAadCore h) ++ (aad.getD []) ++ natToBytesBE 4 i := by
  unfold encryptorAssoc
  rw [aad_bytes_spec]
  cases aad with
  | none => simp [be32]
  | some a =>
      by_cases ha : a.isEmpty
      · have : a = [] := List.isEmpty_iff.mp ha
        subst this
        simp [be32]
      · simp [ha, be32]

def c2WitnessHeader : FileHeader :=
  { version := "1", aead := "AESGCM", enc := "RSA-OAEP", nonce := "qq",
    recipients := [], created_at := 7, chunked := true, chunk_size := some 1024 }

theorem c2_aad_binding_witness :
    encryptorAssoc c2WitnessHeader (some [1, 2]) 3 =
      utf8Bytes (specAadCore c2WitnessHeader) ++
        ((some [1, 2] : Option (List Nat)).getD []) ++ natToBytesBE 4 3 :=
  c2_aad_binding c2WitnessHeader (some [1, 2]) 3 (by decide)

/-! ### Claims C10 and C6 -/

/-- The dict `FileHeader.to_dict` produces when validation passes
(header.py lines 118–138). -/
def headerDictOf (h : FileHeader) : HeaderDict :=
  { version := some (.str h.version)
    aead := some (.str h.aead)
    enc := some (.str h.enc)
    nonce := some (.str h.nonce)
    created_at := some (.num h.created_at)
    chunked := some (.jbool h.chunked)
    recipients := some (h.recipients.map Recipient.to_dict)
    chunk_size := h.chunk_size.map .num
    total_size := h.total_size.map .num
    threshold := if truthyI h.threshold then (h.threshold.map .num) else none
    aad_tag := if truthyS h.aad_tag then (h.aad_tag.map .str) else none
    kdf := if truthyD h.kdf then h.kdf else none
    salt := if truthyS h.salt then (h.salt.map .str) else none }

theorem to_dict_ok (h : FileHeader) (hv : h.validate = .ok ()) :
    h.to_dict = .ok (headerDictOf h) := by
  unfold FileHeader.to_dict headerDictOf
  rw [hv]

theorem to_dict_error (h : FileHeader) (e : String) (hv : h.validate = .error e) :
    h.to_dict = .error e := by
  unfold FileHeader.to_dict
  rw [hv]

/-- C10: serialization runs validation first: `to_dict` (and hence `to_json`)
succeeds exactly on headers accepted by `validate`, surfaces the validation
error otherwise, and every header byte string `open_encrypted_writer` emits
comes from a header that passes validation. -/
theorem c10_serialization_validates (h : FileHeader) :
    ((∃ d, h.to_dict = .ok d) ↔ h.validate = .ok ()) ∧
    ((∃ s, h.to_json = .ok s) ↔ h.validate = .ok ()) ∧
    (∀ e, h.to_dict = .error e → h.validate = .error e) ∧
    (∀ bs, writerHeaderBytes h = .ok bs → h.validate = .ok ()) := by
  have h1 : (∃ d, h.to_dict = .ok d) ↔ h.validate = .ok () := by
    constructor
    · rintro ⟨d, hd⟩
      cases hv : h.validate with
      | error e => rw [to_dict_error h e hv] at hd; exact absurd hd (by simp)
      | ok u => cases u; rfl
    · intro hv
      exact ⟨_, to_dict_ok h hv⟩
  refine ⟨h1, ?_, ?_, ?_⟩
  · constructor
    · rintro ⟨s, hs⟩
      unfold FileHeader.to_json at hs
      cases hd : h.to_dict with
      | error e => rw [hd] at hs; exact absurd hs (by simp [Except.map])
      | ok d => exact h1.mp ⟨d, hd⟩
    · intro hv
      exact ⟨_, by unfold FileHeader.to_json; rw [to_dict_ok h hv]; rfl⟩
  · intro e he
    cases hv : h.validate with
    | error e2 =>
        rw [to_dict_error h e2 hv] at he
        obtain rfl := Except.error.inj he
        rfl
    | ok u => cases u; rw [to_dict_ok h hv] at he; exact absurd he (by simp)
  · intro bs hbs
    unfold writerHeaderBytes FileHeader.to_json at hbs
    cases hd : h.to_dict with
    | error e => rw [hd] at hbs; exact absurd hbs (by simp [Except.map])
    | ok d => exact h1.mp ⟨d, hd⟩

def c10WitnessHeader : FileHeader :=
  { nonce := "AAAA",
    recipients := [{ kid := "k", scheme := "RSA-OAEP", enc_key := "e" }],
    created_at := 1, chunked := false }

theorem c10_serialization_validates_witness :
    FileHeader.validate c10WitnessHeader = .ok () :=
  (c10_serialization_validates c10WitnessHeader).1.mp ⟨_, by rfl⟩

/-! ### Claim C6: header serialization roundtrip -/

theorem getInt_map_num (o : Option Int) : getInt (o.map .num) = .ok o := by
  cases o <;> rfl

theorem getInt_none : getInt none = .ok none := rfl

theorem optstr_roundtrip (o : Option String) (h : o ≠ some "") :
    getStr (if truthyS o then o.map .str else none) = .ok o := by
  rcases o with _ | s
  · rfl
  · have hsB : (s == "") = false := beq_eq_false_iff_ne.mpr (fun hs => h (by rw [hs]))
    simp [truthyS, hsB, getStr]

theorem kdf_roundtrip (o : Option (List (String × Int))) (h : o ≠ some []) :
    (if truthyD o then o else none) = o := by
  rcases o with _ | l
  · rfl
  · have hlB : (l == []) = false := beq_eq_false_iff_ne.mpr (fun hl => h (by rw [hl]))
    simp [truthyD, hlB]

theorem recip_roundtrip (r : Recipient) (hc : recipConsistent r)
    (hk : r.kid ≠ "") (he : r.ephemeral_public ≠ some "") (hn : r.nonce ≠ some "") :
    Recipient.from_dict r.to_dict = .ok r := by
  obtain ⟨kid, scheme, enc_key, epk, non, si⟩ := r
  obtain ⟨hs, hek, hx, hr⟩ := hc
  dsimp only at hs hek hx hr hk he hn
  have hkB : (kid == "") = false := beq_eq_false_iff_ne.mpr hk
  have hekB : (enc_key == "") = false := beq_eq_false_iff_ne.mpr hek
  rcases hs with hs | hs
  · subst hs
    have hx' := hr rfl
    have hepk : epk = none := by
      rcases epk with _ | s
      · rfl
      · have h1 := hx'.1
        simp [truthyS] at h1
        exact absurd (by rw [h1]) he
    have hnon : non = none := by
      rcases non with _ | s
      · rfl
      · have h1 := hx'.2
        simp [truthyS] at h1
        exact absurd (by rw [h1]) hn
    subst hepk
    subst hnon
    have hup : pyUpper "RSA-OAEP" = "RSA-OAEP" := by decide
    cases si <;>
      simp [Recipient.from_dict, Recipient.to_dict, orJ, truthyO, truthyJ, truthyS,
        upperOf, getStr, getInt, hkB, hekB, hup, bind, Except.bind, pure, Except.pure]
  · subst hs
    have hx' := hx rfl
    rcases epk with _ | es
    · simp [truthyS] at hx'
    rcases non with _ | ns
    · simp [truthyS] at hx'
    have hesB : (es == "") = false := by
      have h1 := hx'.1
      simp [truthyS] at h1
      exact beq_eq_false_iff_ne.mpr h1
    have hnsB : (ns == "") = false := by
      have h1 := hx'.2
      simp [truthyS] at h1
      exact beq_eq_false_iff_ne.mpr h1
    have hup : pyUpper "X25519-KEM" = "X25519-KEM" := by decide
    cases si <;>
      simp [Recipient.from_dict, Recipient.to_dict, orJ, truthyO, truthyJ, truthyS,
        upperOf, getStr, getInt, hkB, hekB, hesB, hnsB, hup, bind, Except.bind,
        pure, Except.pure]

theorem recips_roundtrip (l : List Recipient)
    (h : ∀ r ∈ l, recipConsistent r ∧ r.kid ≠ "" ∧
      r.ephemeral_public ≠ some "" ∧ r.nonce ≠ some "") :
    (l.map Recipient.to_dict).mapM Recipient.from_dict = .ok l := by
  induction l with
  | nil => rfl
  | cons r t ih =>
      obtain ⟨hc, hk, he, hn⟩ := h r (by simp)
      have ht := ih (fun x hx => h x (by simp [hx]))
      simp only [List.map_cons, List.mapM_cons, recip_roundtrip r hc hk he hn, ht]
      rfl

theorem from_dict_to_dict (now : Int) (h : FileHeader)
    (hv : h.validate = .ok ())
    (hca : h.created_at ≠ 0)
    (hth : h.threshold ≠ some 0)
    (hat : h.aad_tag ≠ some "")
    (hkdf : h.kdf ≠ some [])
    (hsalt : h.salt ≠ some "")
    (hcsz : h.chunked = false → h.chunk_size = none)
    (hrec : ∀ r ∈ h.recipients, r.kid ≠ "" ∧ r.ephemeral_public ≠ some "" ∧
      r.nonce ≠ some "") :
    FileHeader.from_dict now (headerDictOf h) = .ok h := by
  obtain ⟨hver, haead, henc, hnon, hrne, hrcon, hchk⟩ := (validate_iff_amended h).mp hv
  have hrr : ((h.recipients.map Recipient.to_dict).mapM Recipient.from_dict) =
      .ok h.recipients :=
    recips_roundtrip h.recipients
      (fun r hr => ⟨hrcon r hr, (hrec r hr).1, (hrec r hr).2.1, (hrec r hr).2.2⟩)
  obtain ⟨ver, aead, enc, non, recips, ca, ch, cs, ts, th, tag, kdf, salt⟩ := h
  dsimp only at hver haead henc hnon hca hth hat hkdf hsalt hcsz hrec hrr hv hchk ⊢
  subst hver
  have hnonB : (non == "") = false := beq_eq_false_iff_ne.mpr hnon
  have hcaB : (ca == 0) = false := beq_eq_false_iff_ne.mpr hca
  have hupA : pyUpper aead = aead := by
    rcases haead with h1 | h1 <;> rw [h1] <;> decide
  have hupE : pyUpper enc = enc := by
    rcases henc with h1 | h1 <;> rw [h1] <;> decide
  have haeadB : (aead == "") = false := by
    rcases haead with h1 | h1 <;> rw [h1] <;> decide
  have hencB : (enc == "") = false := by
    rcases henc with h1 | h1 <;> rw [h1] <;> decide
  have hrr2 : List.mapM.loop Recipient.from_dict (List.map Recipient.to_dict recips) []
      = Except.ok recips := hrr
  have hatR := optstr_roundtrip tag hat
  have hsaltR := optstr_roundtrip salt hsalt
  have hkdfR := kdf_roundtrip kdf hkdf
  unfold FileHeader.from_dict headerDictOf
  rcases th with _ | v
  · cases ch
    · have hcs0 : cs = none := hcsz rfl
      subst hcs0
      simp [orJ, truthyJ, truthyO, pyNone, pyStr, pyInt, truthyI, hnonB, hcaB,
        upperOf, hupA, hupE, haeadB, hencB, hatR, hsaltR, hkdfR, hrr, hrr2, getInt_none,
        getInt_map_num, bind, Except.bind, Except.map, pure, Except.pure, hv]
    · simp [orJ, truthyJ, truthyO, pyNone, pyStr, pyInt, truthyI, hnonB, hcaB,
        upperOf, hupA, hupE, haeadB, hencB, hatR, hsaltR, hkdfR, hrr, hrr2, getInt_none,
        getInt_map_num, bind, Except.bind, Except.map, pure, Except.pure, hv]
  · have hvB : (v == 0) = false := beq_eq_false_iff_ne.mpr (fun h0 => hth (by rw [h0]))
    cases ch
    · have hcs0 : cs = none := hcsz rfl
      subst hcs0
      simp [orJ, truthyJ, truthyO, pyNone, pyStr, pyInt, truthyI, hnonB, hcaB, hvB,
        upperOf, hupA, hupE, haeadB, hencB, hatR, hsaltR, hkdfR, hrr, hrr2, getInt_none,
        getInt_map_num, bind, Except.bind, Except.map, pure, Except.pure, hv]
    · simp [orJ, truthyJ, truthyO, pyNone, pyStr, pyInt, truthyI, hnonB, hcaB, hvB,
        upperOf, hupA, hupE, haeadB, hencB, hatR, hsaltR, hkdfR, hrr, hrr2, getInt_none,
        getInt_map_num, bind, Except.bind, Except.map, pure, Except.pure, hv]

def c6Header : FileHeader :=
  { nonce := "AAAA",
    recipients := [{ kid := "k", scheme := "RSA-OAEP", enc_key := "e" }],
    created_at := 1, chunked := false, chunk_size := some 5 }

/-- C6 counterexample: `c6Header` passes validation (it is not chunked, so
`chunk_size` is ignored) and serializes with `"chunk_size":5`, but
`from_json` resets `chunk_size` to `None` whenever `chunked` is false, so
the reparsed header differs from the original and re-serializing it yields
a different canonical string. -/
theorem c6_counterexample :
    FileHeader.validate c6Header = .ok () ∧
    (c6Header.to_dict).bind (FileHeader.from_dict 0) =
      .ok ({ c6Header with chunk_size := none }) ∧
    ¬((c6Header.to_dict).bind (FileHeader.from_dict 0) = .ok c6Header) ∧
    ((c6Header.to_dict).bind (FileHeader.from_dict 0)).bind FileHeader.to_json ≠
      c6Header.to_json := by
  refine ⟨by decide, by decide, by decide, by decide⟩

/-- C6 amended: the serialization roundtrip `from_json ∘ to_json = id` (and
stability of the canonical string) holds for every header that passes
validation AND avoids the lossy encodings: nonzero `created_at`, `threshold`
not 0, `aad_tag`/`salt` not empty strings, `kdf` not an empty dict,
`chunk_size` absent when not chunked, and recipients with nonempty `kid` and
no empty-string `ephemeral_public`/`nonce` (all these are collapsed to
"absent" by `to_dict` or by `from_json` defaults). -/
theorem c6_amended (h : FileHeader) (now : Int)
    (hv : h.validate = .ok ())
    (hca : h.created_at ≠ 0)
    (hth : h.threshold ≠ some 0)
    (hat : h.aad_tag ≠ some "")
    (hkdf : h.kdf ≠ some [])
    (hsalt : h.salt ≠ some "")
    (hcsz : h.chunked = false → h.chunk_size = none)
    (hrec : ∀ r ∈ h.recipients, r.kid ≠ "" ∧ r.ephemeral_public ≠ some "" ∧
      r.nonce ≠ some "") :
    (h.to_dict).bind (FileHeader.from_dict now) = .ok h ∧
    ((h.to_dict).bind (FileHeader.from_dict now)).bind FileHeader.to_json =
      h.to_json := by
  have hmain : (h.to_dict).bind (FileHeader.from_dict now) = .ok h := by
    rw [to_dict_ok h hv]
    show FileHeader.from_dict now (headerDictOf h) = .ok h
    exact from_dict_to_dict now h hv hca hth hat hkdf hsalt hcsz hrec
  refine ⟨hmain, ?_⟩
  rw [hmain]
  rfl

def c6WitnessHeader : FileHeader :=
  { nonce := "AAAA",
    recipients := [{ kid := "k", scheme := "RSA-OAEP", enc_key := "e" },
      { kid := "x", scheme := "X25519-KEM", enc_key := "w",
        ephemeral_public := some "p", nonce := some "n", share_index := some 3 }],
    created_at := 1, chunked := true, chunk_size := some 4, total_size := some 9,
    threshold := some 2, aad_tag := some "t", kdf := some [("n", 14)],
    salt := some "s" }

theorem c6_amended_witness :
    (c6WitnessHeader.to_dict).bind (FileHeader.from_dict 0) = .ok c6WitnessHeader ∧
    ((c6WitnessHeader.to_dict).bind (FileHeader.from_dict 0)).bind FileHeader.to_json =
      c6WitnessHeader.to_json :=
  c6_amended c6WitnessHeader 0 (by decide) (by decide) (by decide) (by decide)
    (by decide) (by decide) (by decide) (by decide)


/-! ### Claim C8: keystore sealed-blob roundtrip and its failure kind

`KeyStore.write_keypair` (keystore.py lines 51–88) derives a 32-byte key
from the passphrase with Scrypt, AES-GCM-encrypts the PKCS8 PEM, and stores
the payload `{v, alg, salt, nonce, ct}` with base64 fields;
`load_private_key_with_passphrase` (lines 124–138) reverses this.  Scrypt
and AES-GCM are library primitives, so the embedding takes them as
parameters (`kdf`, `enc`, `dec`); the claim theorem assumes only the AEAD
correctness and authenticity properties the library guarantees, and the
witness instantiates them with an executable ideal model. -/

/-- Error kinds reachable from `load_private_key_with_passphrase`: the raw
`cryptography.exceptions.InvalidTag` escaping `AESGCM.decrypt`, the repo's
own `InvalidPassphrase` (declared in exceptions.py but raised nowhere), and
base64 decode failures. -/
inductive KSErr where
  | invalidTag
  | invalidPassphrase
  | b64 (e : String)
deriving DecidableEq, Repr

/-- The JSON payload `write_keypair` stores in `<kid>_priv.enc`. -/
structure SealedPayload where
  v : Int
  alg : String
  salt : String
  nonce : String
  ct : String
deriving DecidableEq, Repr

/-- Sealing part of `KeyStore.write_keypair` (keystore.py lines 68–85):
`salt` and `nonce` are the freshly drawn random bytes. -/
def write_keypair (kdf : List Nat → List Nat → List Nat)
    (enc : List Nat → List Nat → List Nat → List Nat)
    (salt nonce passphrase pem : List Nat) : SealedPayload :=
  { v := 1
    alg := "AES-256-GCM"
    salt := b64e salt
    nonce := b64e nonce
    ct := b64e (enc (kdf passphrase salt) nonce pem) }

/-- Embedding of `KeyStore.load_private_key_with_passphrase` (keystore.py
lines 124–138), from the parsed payload on: any `InvalidTag` from
`AESGCM.decrypt` propagates unmapped. -/
def load_private_key_with_passphrase (kdf : List Nat → List Nat → List Nat)
    (dec : List Nat → List Nat → List Nat → Except KSErr (List Nat))
    (p : SealedPayload) (passphrase : List Nat) : Except KSErr (List Nat) := do
  let salt ← (b64d p.salt).mapError KSErr.b64
  let nonce ← (b64d p.nonce).mapError KSErr.b64
  let ct ← (b64d p.ct).mapError KSErr.b64
  dec (kdf passphrase salt) nonce ct

/-- C8: for any KDF and any AEAD with the library's correctness and
authenticity properties, unsealing `write_keypair`'s payload with the
sealing passphrase returns the original PEM, but unsealing with a
passphrase whose derived key differs fails with the RAW `InvalidTag`
error — not the `InvalidPassphrase` kind the claim names, which the code
never raises. -/
theorem c8_keystore_seal_unseal
    (kdf : List Nat → List Nat → List Nat)
    (enc : List Nat → List Nat → List Nat → List Nat)
    (dec : List Nat → List Nat → List Nat → Except KSErr (List Nat))
    (hdec : ∀ k n m, dec k n (enc k n m) = .ok m)
    (hauth : ∀ k k2 n m, k ≠ k2 → dec k2 n (enc k n m) = .error .invalidTag)
    (salt nonce passphrase passphrase2 pem : List Nat)
    (hsb : ∀ b ∈ salt, b < 256) (hnb : ∀ b ∈ nonce, b < 256)
    (hcb : ∀ b ∈ enc (kdf passphrase salt) nonce pem, b < 256)
    (hkd : kdf passphrase salt ≠ kdf passphrase2 salt) :
    load_private_key_with_passphrase kdf dec
      (write_keypair kdf enc salt nonce passphrase pem) passphrase = .ok pem ∧
    load_private_key_with_passphrase kdf dec
      (write_keypair kdf enc salt nonce passphrase pem) passphrase2 =
      .error KSErr.invalidTag ∧
    (Except.error KSErr.invalidTag : Except KSErr (List Nat)) ≠
      .error KSErr.invalidPassphrase := by
  have hsalt := b64d_b64e salt hsb
  have hnon := b64d_b64e nonce hnb
  have hct := b64d_b64e _ hcb
  refine ⟨?_, ?_, by simp⟩
  · simp only [load_private_key_with_passphrase, write_keypair, hsalt, hnon, hct,
      Except.mapError, bind, Except.bind, hdec]
  · simp only [load_private_key_with_passphrase, write_keypair, hsalt, hnon, hct,
      Except.mapError, bind, Except.bind, hauth _ _ _ _ hkd]

/-- Executable ideal-AEAD model used to witness `c8_keystore_seal_unseal`:
the ciphertext records the key and nonce lengths and contents, decryption
checks them. -/
def gcmModelEnc (k n m : List Nat) : List Nat := k.length :: n.length :: (k ++ n ++ m)

def gcmModelDec (k n c : List Nat) : Except KSErr (List Nat) :=
  match c with
  | lk :: ln :: rest =>
      if lk = k.length ∧ ln = n.length ∧ rest.take lk = k ∧
          (rest.drop lk).take ln = n then
        .ok ((rest.drop lk).drop ln)
      else .error .invalidTag
  | _ => .error .invalidTag

def scryptModel (passphrase salt : List Nat) : List Nat :=
  passphrase.length :: (passphrase ++ salt)

theorem gcmModelDec_enc (k n m : List Nat) :
    gcmModelDec k n (gcmModelEnc k n m) = .ok m := by
  unfold gcmModelDec gcmModelEnc
  simp [List.append_assoc, List.take_left, List.drop_left]

theorem gcmModelDec_wrong (k k2 n m : List Nat) (hne : k ≠ k2) :
    gcmModelDec k2 n (gcmModelEnc k n m) = .error .invalidTag := by
  unfold gcmModelDec gcmModelEnc
  by_cases hl : k.length = k2.length
  · have htk : (k ++ n ++ m).take k.length = k := by
      rw [List.append_assoc, List.take_left]
    simp [hl, htk, hne]
  · simp [hl]

theorem c8_keystore_seal_unseal_witness :
    load_private_key_with_passphrase scryptModel gcmModelDec
      (write_keypair scryptModel gcmModelEnc [1, 2] [3] [7, 7] [9, 9, 9]) [7, 7] =
      .ok [9, 9, 9] ∧
    load_private_key_with_passphrase scryptModel gcmModelDec
      (write_keypair scryptModel gcmModelEnc [1, 2] [3] [7, 7] [9, 9, 9]) [8] =
      .error KSErr.invalidTag ∧
    (Except.error KSErr.invalidTag : Except KSErr (List Nat)) ≠
      .error KSErr.invalidPassphrase :=
  c8_keystore_seal_unseal scryptModel gcmModelEnc gcmModelDec
    gcmModelDec_enc (fun k k2 n m => gcmModelDec_wrong k k2 n m)
    [1, 2] [3] [7, 7] [8] [9, 9, 9]
    (by decide) (by decide) (by decide) (by decide)


/-! ### Claims C1 and C5: the hybrid encrypt/decrypt pipeline

`HybridEncryptor.encrypt_file` (encryptor.py lines 33–132) and
`HybridDecryptor.decrypt_file` (decryptor.py lines 22–105) — the pair the
CLI `encrypt`/`decrypt` commands invoke.  Library primitives are
parameters: `wrap kid m` models `RsaKeyPair(load_rsa_public(kid)).wrap_key
(m)`; `unwrap`/`unwrapX` model the private-key loads plus unwraps (any
exception inside the decryptor's `try` is a `.error`); `aeadEnc`/`aeadDec`
model `AESGCM`/`ChaCha20Poly1305` (the library treats `None` associated
data exactly as `b""`, so AAD is a plain list and `[]` stands for `None`);
`loads` models `json.loads`.  Both services import `CONFIG` from
`data_guardian.config`, whose `AppConfig` has NO `crypto` attribute
(config.py defines only `store_dir` and `kdf`; the crypto defaults live in
the separate, un-imported `utils/config.py`), so every `CONFIG.crypto...`
access raises AttributeError — the `cfg` parameter carries that access's
outcome, with `configCrypto` the faithful value and `intendedCrypto` the
defaults utils/config.py plainly intended. -/

inductive DecErr where
  | invalidHeader (msg : String)
  | invalidDgdFile (msg : String)
  | invalidTag
  | pyError (msg : String)
deriving DecidableEq, Repr

structure CryptoDefaults where
  aead : String
  rsa_oaep_hash : String
  default_chunk_size : Int
deriving DecidableEq, Repr

/-- `CONFIG.crypto` as the imported `data_guardian.config` actually
resolves it: `AppConfig` there has no such attribute. -/
def configCrypto : Except DecErr CryptoDefaults :=
  .error (.pyError "AttributeError: AppConfig object has no attribute crypto")

/-- The `CryptoDefaults` of `utils/config.py` (never imported by the
services). -/
def intendedCrypto : Except DecErr CryptoDefaults :=
  .ok { aead := "AESGCM", rsa_oaep_hash := "SHA256", default_chunk_size := 1048576 }

def chunksOfF : Nat → Nat → List Nat → List (List Nat)
  | 0, _, _ => []
  | _ + 1, _, [] => []
  | fuel + 1, sz, l => l.take sz :: chunksOfF fuel sz (l.drop sz)

/-- `iter(lambda: source.read(chunk), b"")` (encryptor.py line 121) for a
non-negative chunk size: `read(0)` returns the sentinel immediately. -/
def chunksOf (sz : Nat) (l : List Nat) : List (List Nat) :=
  if sz = 0 then [] else chunksOfF l.length sz l

/-- The same stream for an `int` chunk size: `read(n)` with negative `n`
reads the whole file at once. -/
def chunksOfI (sz : Int) (l : List Nat) : List (List Nat) :=
  if sz < 0 then (if l = [] then [] else [l]) else chunksOf sz.toNat l

/-- The encryptor's chunk loop (encryptor.py lines 120–131): each chunk is
AEAD-encrypted under `derive_chunk_nonce(base_nonce, index)` with
associated data `aad_material ++ be32 index`, and framed by `write_chunk`
(file_io.py lines 50–54) as `be32 (len ct) ++ be32 index ++ ct`. -/
def encBody (aeadEnc : List Nat → List Nat → List Nat → List Nat → List Nat)
    (cek base_nonce aad_material : List Nat) :
    Nat → List (List Nat) → Except DecErr (List Nat)
  | _, [] => .ok []
  | i, c :: cs => do
      let nonce ← match derive_chunk_nonce base_nonce i with
        | some n => pure n
        | none => throw (DecErr.pyError "ValueError: chunk index")
      let ct := aeadEnc cek nonce c (aad_material ++ be32 i)
      let rest ← encBody aeadEnc cek base_nonce aad_material (i + 1) cs
      pure (be32 ct.length ++ be32 i ++ ct ++ rest)

/-- Embedding of `HybridEncryptor.encrypt_file` (encryptor.py lines
33–132) with `threshold_k=None` and `aad=None` (claim C1's premise);
`created` is the `int(time.time())` of the FileHeader default factory,
`cek`/`base_nonce` the `gen_key_for`/`gen_nonce_for` outputs.  Returns the
bytes written to the output file together with the returned header. -/
def encrypt_file (cfg : Except DecErr CryptoDefaults)
    (wrap : String → List Nat → List Nat)
    (wrapX : String → List Nat → List Nat × List Nat × List Nat)
    (aeadEnc : List Nat → List Nat → List Nat → List Nat → List Nat)
    (recipient_kids : List String) (enc : String) (aead oaep_hash : Option String)
    (chunk_size : Option Int) (cek base_nonce : List Nat)
    (total_size created : Int) (pt : List Nat) :
    Except DecErr (List Nat × FileHeader) := do
  if recipient_kids = [] then
    throw (DecErr.invalidHeader "At least one recipient is required")
  let aead_name ← match aead with
    | some s =>
        if s ≠ "" then pure (pyUpper s)
        else do let c ← cfg; pure (pyUpper c.aead)
    | none => do let c ← cfg; pure (pyUpper c.aead)
  let enc_scheme := pyUpper enc
  let _oaep_alg ← match oaep_hash with
    | some s =>
        if s ≠ "" then pure (pyUpper s)
        else do let c ← cfg; pure (pyUpper c.rsa_oaep_hash)
    | none => do let c ← cfg; pure (pyUpper c.rsa_oaep_hash)
  let chunk ← match chunk_size with
    | some n =>
        if n ≠ 0 then pure n
        else do let c ← cfg; pure c.default_chunk_size
    | none => do let c ← cfg; pure c.default_chunk_size
  let recipients ← recipient_kids.mapM (fun kid =>
    if enc_scheme = "RSA-OAEP" then
      pure ({ kid := kid, scheme := "RSA-OAEP", enc_key := b64e (wrap kid cek),
              share_index := none } : Recipient)
    else if enc_scheme = "X25519-KEM" then
      let w := wrapX kid cek
      pure ({ kid := kid, scheme := "X25519-KEM", enc_key := b64e w.1,
              ephemeral_public := some (b64e w.2.1), nonce := some (b64e w.2.2),
              share_index := none } : Recipient)
    else throw (DecErr.invalidHeader ("Unsupported key wrap scheme: " ++ enc_scheme)))
  let header : FileHeader :=
    { aead := aead_name, enc := enc_scheme, nonce := b64e base_nonce,
      recipients := recipients, created_at := created, chunked := true,
      chunk_size := some chunk, total_size := some total_size, threshold := none }
  if ¬(aead_name = "AESGCM" ∨ aead_name = "CHACHA20") then
    throw (DecErr.pyError ("ValueError: Unsupported AEAD: " ++ aead_name))
  let aad_material := header.aad_bytes
  let headerBytes ← (writerHeaderBytes header).mapError DecErr.invalidHeader
  let chunks0 := chunksOfI chunk pt
  let chunks := if chunks0 = [] then [[]] else chunks0
  let body ← encBody aeadEnc cek base_nonce aad_material 0 chunks
  pure (headerBytes ++ body, header)

/-- `blob.find(b"\n\n")` (decryptor.py line 24). -/
def findSep : List Nat → Option Nat
  | [] => none
  | [_] => none
  | a :: b :: t =>
      if a = 10 ∧ b = 10 then some 0
      else (findSep (b :: t)).map (· + 1)

/-- Body of one iteration of the decryptor's RSA recipient `try` block
(decryptor.py lines 41–47 / 74–80): a missing or non-string `ek`/`ek_b64`,
a bad base64, or a failing key load/unwrap all fall to `except: continue`. -/
def attemptRsa (unwrap : JScalar → List Nat → Except String (List Nat))
    (kidJ : JScalar) (r : RecipDict) : Option (List Nat) :=
  (do
    let ekS ← match r.ek with
      | some (.str s) => pure s
      | some _ => throw "TypeError: a bytes-like object is required"
      | none =>
          match r.ek_b64 with
          | some (.str s) => pure s
          | some _ => throw "TypeError: a bytes-like object is required"
          | none => throw "KeyError: ek_b64"
    let wrapped ← b64d ekS
    unwrap kidJ wrapped).toOption

/-- The X25519 counterpart (decryptor.py lines 51–62 / 81–91). -/
def attemptX (unwrapX : JScalar → List Nat × List Nat × List Nat → Except String (List Nat))
    (kidJ : JScalar) (r : RecipDict) : Option (List Nat) :=
  (do
    let epkS ← match r.epk_pem_b64 with
      | some (.str s) => pure s
      | some _ => throw "TypeError: a bytes-like object is required"
      | none => throw "KeyError: epk_pem_b64"
    let epk ← b64d epkS
    let ekS ← match r.ek with
      | some (.str s) => pure s
      | some _ => throw "TypeError: a bytes-like object is required"
      | none =>
          match r.ek_b64 with
          | some (.str s) => pure s
          | some _ => throw "TypeError: a bytes-like object is required"
          | none => throw "KeyError: ek_b64"
    let ct ← b64d ekS
    let nonS ← match r.nonce with
      | some (.str s) => pure s
      | some _ => throw "TypeError: a bytes-like object is required"
      | none =>
          match r.nonce_b64 with
          | some (.str s) => pure s
          | some _ => throw "TypeError: a bytes-like object is required"
          | none => throw "KeyError: nonce_b64"
    let non ← b64d nonS
    unwrapX kidJ (epk, ct, non)).toOption

/-- The non-threshold recipient loop (decryptor.py lines 39–47 and 49–62):
first successful unwrap wins; `kid = recip["kid"]` sits OUTSIDE the `try`,
so a missing kid propagates. -/
def firstUnwrap (attempt : JScalar → RecipDict → Option (List Nat)) :
    List RecipDict → Except DecErr (Option (List Nat))
  | [] => .ok none
  | r :: rs =>
      match r.kid with
      | none => .error (DecErr.pyError "KeyError: kid")
      | some kidJ =>
          match attempt kidJ r with
          | some cek => .ok (some cek)
          | none => firstUnwrap attempt rs

/-- The threshold share loop (decryptor.py lines 72–95): shares are keyed
by the 1-based enumeration position `idx` — `share_index` is never read —
and the loop breaks as soon as `k` shares are collected. -/
def collectShares (attempt : JScalar → RecipDict → Option (List Nat)) (k : Nat) :
    Nat → List RecipDict → List (Nat × Nat) → Except DecErr (List (Nat × Nat))
  | _, [], acc => .ok acc
  | idx, r :: rs, acc =>
      match r.kid with
      | none => .error (DecErr.pyError "KeyError: kid")
      | some kidJ =>
          let acc2 := match attempt kidJ r with
            | some share_bytes => acc ++ [(idx, bytesToNatBE share_bytes)]
            | none => acc
          if k ≤ acc2.length then .ok acc2
          else collectShares attempt k (idx + 1) rs acc2

/-- CEK recovery of `HybridDecryptor.decrypt_file` (decryptor.py lines
34–102).  The branch keys on the LEGACY `threshold_k` entry — the
`threshold` key canonical headers carry is never consulted — and an
unrecognised scheme inside the threshold loop silently collects nothing. -/
def cekOf (cfg : Except DecErr CryptoDefaults)
    (unwrap : JScalar → List Nat → Except String (List Nat))
    (unwrapX : JScalar → List Nat × List Nat × List Nat → Except String (List Nat))
    (d : HeaderDict) : Except DecErr (List Nat) :=
  let encJ := d.enc.getD (.str "RSA-OAEP")
  let rs := d.recipients.getD []
  let nonThreshold : Except DecErr (List Nat) := do
    let copt ←
      if encJ = .str "RSA-OAEP" then do
        let _ ← cfg
        firstUnwrap (attemptRsa unwrap) rs
      else if encJ = .str "X25519-KEM" then firstUnwrap (attemptX unwrapX) rs
      else throw (DecErr.invalidDgdFile ("Unsupported enc scheme: " ++ pyStr encJ))
    match copt with
    | some cek => pure cek
    | none => throw (DecErr.invalidDgdFile "No matching recipient key could unwrap CEK")
  match d.threshold_k with
  | none => nonThreshold
  | some j =>
      if ¬truthyJ j then nonThreshold
      else do
        let kI ← (pyInt j).mapError DecErr.pyError
        if kI ≤ 1 then nonThreshold
        else do
          if encJ = .str "RSA-OAEP" then do
            let _ ← cfg
            pure ()
          else pure ()
          let attempt : JScalar → RecipDict → Option (List Nat) :=
            if encJ = .str "RSA-OAEP" then attemptRsa unwrap
            else if encJ = .str "X25519-KEM" then attemptX unwrapX
            else fun _ _ => none
          let shares ← collectShares attempt kI.toNat 1 rs []
          if shares.length < kI.toNat then
            throw (DecErr.invalidDgdFile "Not enough shares to reconstruct CEK")
          else (combine_shares shares kI.toNat).mapError DecErr.pyError

/-- Embedding of `HybridDecryptor.decrypt_file` (decryptor.py lines
22–105): split at the first `\n\n`, `json.loads` the header (the `loads`
parameter), recover the CEK, then AEAD-decrypt the ENTIRE remaining body
in ONE call with the base content nonce and NO associated data.  Note
`header.get("aead", CONFIG.crypto.aead)` evaluates its default argument
unconditionally, so the broken `CONFIG.crypto` access fires on every
call. -/
def decrypt_file (cfg : Except DecErr CryptoDefaults)
    (unwrap : JScalar → List Nat → Except String (List Nat))
    (unwrapX : JScalar → List Nat × List Nat × List Nat → Except String (List Nat))
    (aeadDec : List Nat → List Nat → List Nat → List Nat → Except DecErr (List Nat))
    (loads : List Nat → Except DecErr HeaderDict) (blob : List Nat) :
    Except DecErr (List Nat) := do
  let sep ← match findSep blob with
    | some i => pure i
    | none => throw (DecErr.invalidDgdFile "Missing header separator")
  let d ← loads (blob.take sep)
  let body := blob.drop (sep + 2)
  let cdef ← cfg
  let aeadJ := d.aead.getD (.str cdef.aead)
  let content_nonce ← match orJ d.nonce d.content_nonce_b64 with
    | some (.str s) => (b64d s).mapError DecErr.pyError
    | _ => throw (DecErr.pyError "TypeError: a bytes-like object is required")
  let cek ← cekOf cfg unwrap unwrapX d
  let aeadName ← match aeadJ with
    | .str s => pure (pyUpper s)
    | _ => throw (DecErr.pyError "AttributeError: upper")
  if aeadName = "AESGCM" ∨ aeadName = "CHACHA20" then
    aeadDec cek content_nonce body []
  else throw (DecErr.pyError ("ValueError: Unsupported AEAD: " ++ aeadName))

/-! Executable models of the library primitives, for concrete runs. -/

def aeadModelEnc (k n m a : List Nat) : List Nat :=
  k.length :: n.length :: a.length :: (k ++ n ++ a ++ m)

def aeadModelDec (k n c a : List Nat) : Except DecErr (List Nat) :=
  match c with
  | lk :: ln :: la :: rest =>
      if lk = k.length ∧ ln = n.length ∧ la = a.length ∧
          rest.take lk = k ∧ (rest.drop lk).take ln = n ∧
          ((rest.drop lk).drop ln).take la = a then
        .ok (((rest.drop lk).drop ln).drop la)
      else .error DecErr.invalidTag
  | _ => .error DecErr.invalidTag

def rsaModelWrap (kid : String) (m : List Nat) : List Nat := 0 :: m

def rsaModelUnwrap (kid : JScalar) (c : List Nat) : Except String (List Nat) :=
  match c with
  | 0 :: m => .ok m
  | _ => .error "ValueError: decryption failed"

def noX25519Wrap (kid : String) (m : List Nat) : List Nat × List Nat × List Nat :=
  ([], [], [])

def noX25519Unwrap (kid : JScalar) (w : List Nat × List Nat × List Nat) :
    Except String (List Nat) :=
  .error "FileNotFoundError: no X25519 private key"

/-! Concrete C1 run: a 6-byte file, one RSA recipient, AESGCM, 4-byte
chunks (caller passes aead, oaep_hash and chunk_size explicitly, so the
encryptor never touches the broken `CONFIG.crypto`). -/

def c1CEK : List Nat := [5, 6]

def c1Base : List Nat := [0, 0, 0, 0, 0, 0, 0, 0, 0, 0, 0, 1]

def c1PT : List Nat := [1, 2, 3, 4, 5, 6]

def c1Run : Except DecErr (List Nat × FileHeader) :=
  encrypt_file configCrypto rsaModelWrap noX25519Wrap aeadModelEnc ["k1"]
    "RSA-OAEP" (some "AESGCM") (some "SHA256") (some 4) c1CEK c1Base 6 1 c1PT

def c1Blob : List Nat := ((c1Run.toOption).map Prod.fst).getD []

def c1Header : FileHeader := ((c1Run.toOption).map Prod.snd).getD {}

/-- C1: the CLI encrypt/decrypt pair does NOT round-trip.  Encryption of a
6-byte file succeeds (conjunct 1), but decryption of its output fails: with
the config module the services actually import, `decrypt_file` dies on the
missing `CONFIG.crypto` attribute before touching the ciphertext (conjunct
2); even granting the intended crypto defaults, the decryptor AEAD-decrypts
the whole framed chunk stream in one call with the base nonce and no
associated data, so authentication fails with InvalidTag (conjunct 3) —
never the original plaintext (conjunct 4).  Conjunct 5 justifies the
`loads` stub: the bytes before the separator are exactly the canonical
rendering of `headerDictOf c1Header` (whose `json.loads` is that dict), and
conjunct 6 re-checks that dict against `to_dict`. -/
theorem c1_roundtrip_fails :
    c1Run = .ok (c1Blob, c1Header) ∧
    decrypt_file configCrypto rsaModelUnwrap noX25519Unwrap aeadModelDec
      (fun _ => .ok (headerDictOf c1Header)) c1Blob =
      .error (DecErr.pyError "AttributeError: AppConfig object has no attribute crypto") ∧
    decrypt_file intendedCrypto rsaModelUnwrap noX25519Unwrap aeadModelDec
      (fun _ => .ok (headerDictOf c1Header)) c1Blob = .error DecErr.invalidTag ∧
    (Except.error DecErr.invalidTag : Except DecErr (List Nat)) ≠ .ok c1PT ∧
    c1Blob.take ((findSep c1Blob).getD 0) =
      utf8Bytes (HeaderDict.render (headerDictOf c1Header)) ∧
    c1Header.to_dict = .ok (headerDictOf c1Header) := by
  refine ⟨by decide, by decide, by decide, by decide, by decide, by decide⟩


/-! ### Claim C5: the threshold decryption flow -/

def enumFrom {α : Type} : Nat → List α → List (Nat × α)
  | _, [] => []
  | i, x :: xs => (i, x) :: enumFrom (i + 1) xs

/-- The collector loop equals "first k successes of the 1-based
enumeration": shares come in recipient order, keyed by POSITION, with the
loop's early break equal to a `take`. -/
theorem collectShares_spec (attempt : JScalar → RecipDict → Option (List Nat)) (k : Nat) :
    ∀ (rs : List RecipDict) (i : Nat) (acc : List (Nat × Nat)),
      acc.length < k →
      (∀ r ∈ rs, r.kid ≠ none) →
      collectShares attempt k i rs acc =
        .ok ((acc ++ (enumFrom i rs).filterMap (fun p =>
          match p.2.kid with
          | some kidJ => (attempt kidJ p.2).map (fun sb => (p.1, bytesToNatBE sb))
          | none => none)).take k) := by
  intro rs
  induction rs with
  | nil =>
      intro i acc hacc _
      simp [collectShares, enumFrom, List.take_of_length_le (le_of_lt hacc)]
  | cons r rs ih =>
      intro i acc hacc hkid
      obtain ⟨kidJ, hkj⟩ : ∃ j, r.kid = some j := by
        cases hr : r.kid with
        | none => exact absurd hr (hkid r (by simp))
        | some j => exact ⟨j, rfl⟩
      have hkidt : ∀ x ∈ rs, x.kid ≠ none := fun x hx => hkid x (by simp [hx])
      unfold collectShares
      rw [hkj]
      cases hat : attempt kidJ r with
      | none =>
          have hlt : ¬ k ≤ acc.length := not_le.mpr hacc
          simp only [hat, if_neg hlt]
          rw [ih (i + 1) acc hacc hkidt]
          simp [enumFrom, hkj, hat]
      | some sb =>
          by_cases hge : k ≤ acc.length + 1
          · have hkeq : k = acc.length + 1 := le_antisymm hge hacc
            have hlen : (acc ++ [(i, bytesToNatBE sb)]).length = k := by
              simp [hkeq]
            simp only [hat, if_pos (le_of_eq hlen.symm)]
            have htake : ∀ L : List (Nat × Nat),
                (acc ++ ((i, bytesToNatBE sb) :: L)).take k = acc ++ [(i, bytesToNatBE sb)] := by
              intro L
              rw [List.take_append_eq_append_take,
                List.take_of_length_le (by omega : acc.length ≤ k)]
              have : k - acc.length = 1 := by omega
              rw [this]
              rfl
            simp [enumFrom, hkj, hat, htake]
          · have hacc2 : (acc ++ [(i, bytesToNatBE sb)]).length < k := by
              simp only [List.length_append, List.length_cons, List.length_nil]
              omega
            have hlt : ¬ k ≤ (acc ++ [(i, bytesToNatBE sb)]).length :=
              not_le.mpr hacc2
            simp only [hat, if_neg hlt]
            rw [ih (i + 1) (acc ++ [(i, bytesToNatBE sb)]) hacc2 hkidt]
            simp [enumFrom, hkj, hat]

def c5Recip (i y : Nat) (si : Int) : RecipDict :=
  { kid := some (.str ("k" ++ toString i)), scheme := some (.str "RSA-OAEP"),
    ek := some (.str (b64e (0 :: natToBytesBE 32 y))), share_index := some (.num si) }

/-- A canonical threshold-2 header dict, as the encryptor's own `to_json`
produces it (threshold under the `"threshold"` key): recipients wrap the
Shamir shares y(1)=6, y(2)=7 of the secret 5 under the line 5 + x. -/
def c5DictCanonical : HeaderDict :=
  { version := some (.str "1"), aead := some (.str "AESGCM"),
    enc := some (.str "RSA-OAEP"), nonce := some (.str "AAAA"),
    created_at := some (.num 1), chunked := some (.jbool true),
    chunk_size := some (.num 4), threshold := some (.num 2),
    recipients := some [c5Recip 1 6 1, c5Recip 2 7 2] }

def c5LegacyRecips : List RecipDict := [c5Recip 1 7 2, c5Recip 2 6 1]

/-- A legacy `threshold_k` dict whose recipients are listed out of share
order: position 1 holds the x=2 share (y=7, share_index 2), position 2 the
x=1 share (y=6, share_index 1). -/
def c5DictLegacy : HeaderDict :=
  { version := some (.str "1"), aead := some (.str "AESGCM"),
    enc := some (.str "RSA-OAEP"), nonce := some (.str "AAAA"),
    created_at := some (.num 1), chunked := some (.jbool true),
    chunk_size := some (.num 4), threshold_k := some (.num 2),
    recipients := some c5LegacyRecips }

/-- C5 counterexample, two independent divergences.  (1) On the canonical
dict carrying `"threshold": 2` the decryptor takes the NON-threshold path
— it only reads the legacy `threshold_k` key — and returns the first
recipient's unwrapped share bytes as the "CEK" (the value 6), instead of
the Lagrange reconstruction 5 the claim describes.  (2) Even on a legacy
`threshold_k` dict, shares are keyed by 1-based position, ignoring
`share_index`: with the shares listed out of order the code reconstructs
8, while combining by `share_index` as claimed yields the true secret 5. -/
theorem c5_counterexample :
    cekOf intendedCrypto rsaModelUnwrap noX25519Unwrap c5DictCanonical =
      .ok (natToBytesBE 32 6) ∧
    combine_shares [(1, 6), (2, 7)] 2 = .ok (natToBytesBE 32 5) ∧
    natToBytesBE 32 6 ≠ natToBytesBE 32 5 ∧
    cekOf intendedCrypto rsaModelUnwrap noX25519Unwrap c5DictLegacy =
      .ok (natToBytesBE 32 8) ∧
    combine_shares [(2, 7), (1, 6)] 2 = .ok (natToBytesBE 32 5) ∧
    natToBytesBE 32 8 ≠ natToBytesBE 32 5 := by
  refine ⟨by decide, by decide, by decide, by decide, by decide, by decide⟩

/-- C5: what the threshold flow actually does.  The branch triggers only
when the LEGACY `threshold_k` entry is a truthy value ≥ 2 (the canonical
`threshold` key is never consulted); recipients are tried in header order
with the share x-coordinate equal to the 1-based POSITION (`share_index`
is ignored); collection stops after `threshold_k` shares; with fewer
unwrappable shares it fails with `InvalidDgdFile("Not enough shares to
reconstruct CEK")` (exceptions.InvalidDgdFile — not the utils.errors
`InvalidCiphertext` kind the claim names); otherwise the CEK is
`combine_shares` of the collected position-keyed shares. -/
theorem c5_threshold_behavior
    (unwrap : JScalar → List Nat → Except String (List Nat))
    (unwrapX : JScalar → List Nat × List Nat × List Nat → Except String (List Nat))
    (d : HeaderDict) (k : Int) (rs : List RecipDict)
    (hth : d.threshold_k = some (.num k)) (hk : 2 ≤ k)
    (henc : d.enc = some (.str "RSA-OAEP"))
    (hrs : d.recipients = some rs)
    (hkid : ∀ r ∈ rs, r.kid ≠ none) :
    cekOf intendedCrypto unwrap unwrapX d =
      (let shares := ((enumFrom 1 rs).filterMap (fun p =>
         match p.2.kid with
         | some kidJ => (attemptRsa unwrap kidJ p.2).map (fun sb => (p.1, bytesToNatBE sb))
         | none => none)).take k.toNat
       if shares.length < k.toNat then
         Except.error (DecErr.invalidDgdFile "Not enough shares to reconstruct CEK")
       else (combine_shares shares k.toNat).mapError DecErr.pyError) := by
  have hkne : (k == 0) = false := beq_eq_false_iff_ne.mpr (by omega)
  have hknle : ¬ k ≤ 1 := by omega
  have hcoll := collectShares_spec (attemptRsa unwrap) k.toNat rs 1 []
    (by simp; omega) hkid
  simp only [cekOf, hth, henc, hrs, Option.getD_some, truthyJ, hkne, Bool.not_false,
    pyInt, Except.mapError, bind, Except.bind, intendedCrypto, if_neg hknle,
    if_pos rfl, ite_true, ite_false, Bool.not_eq_true, not_false_eq_true, hcoll,
    List.nil_append, pure, Except.pure]
  rfl

def c5WitnessShares : List (Nat × Nat) :=
  ((enumFrom 1 c5LegacyRecips).filterMap (fun p =>
    match p.2.kid with
    | some kidJ => (attemptRsa rsaModelUnwrap kidJ p.2).map (fun sb => (p.1, bytesToNatBE sb))
    | none => none)).take (2 : Int).toNat

theorem c5_threshold_behavior_witness :
    cekOf intendedCrypto rsaModelUnwrap noX25519Unwrap c5DictLegacy =
      (if c5WitnessShares.length < (2 : Int).toNat then
         Except.error (DecErr.invalidDgdFile "Not enough shares to reconstruct CEK")
       else (combine_shares c5WitnessShares (2 : Int).toNat).mapError DecErr.pyError) :=
  c5_threshold_behavior rsaModelUnwrap noX25519Unwrap c5DictLegacy 2 c5LegacyRecips
    rfl (by decide) rfl rfl (by decide)

end DataGuardian
